import Mathlib

/-!
Verification development for the Luigi's Box catalog export script
(`src/main.py`).  The script signs HTTP GET requests with an
HMAC-SHA256 digest, follows cursor pagination of the `/v1/content_export`
endpoint until a page carries no usable `next` link, and flattens the
accumulated catalog objects into a CSV table whose columns are
`url, type, exact, <sorted attribute keys>, nested`.

The development shallowly embeds the script: JSON values are modelled by
the inductive `JVal` (numbers as integers), `json.dumps` with its default
separators by `jdumps`, the remote server by a response function
`Nat → String → Page` giving the JSON page returned for the k-th request
to a given URL, and the pagination loop by a fuel-indexed recursion that
returns `none` only when fuel runs out (the Python loop has no bound).
All definitions are executable.
-/

namespace LBox

/-- JSON values as handled by the script (numbers restricted to integers;
the catalog payloads contain no floats in the modelled claims). -/
inductive JVal where
  | null : JVal
  | bool : Bool → JVal
  | num : Int → JVal
  | str : String → JVal
  | arr : List JVal → JVal
  | obj : List (String × JVal) → JVal
deriving Repr

/-- Decimal digit to character. -/
def digitChar (n : Nat) : Char :=
  if n = 0 then '0' else if n = 1 then '1' else if n = 2 then '2'
  else if n = 3 then '3' else if n = 4 then '4' else if n = 5 then '5'
  else if n = 6 then '6' else if n = 7 then '7' else if n = 8 then '8' else '9'

/-- Little-endian decimal digits of a natural number; fuelled so that every
use reduces by `rfl`.  `natDigitsAux n n` is correct because a number needs
no more decimal digits than its own value. -/
def natDigitsAux : Nat → Nat → List Nat
  | 0, _ => []
  | fuel + 1, n => if n = 0 then [] else n % 10 :: natDigitsAux fuel (n / 10)

def natDigits (n : Nat) : List Nat := natDigitsAux n n

/-- Decimal rendering of a natural number, as Python `str`. -/
def natToChars (m : Nat) : List Char :=
  if m = 0 then ['0'] else ((natDigits m).map digitChar).reverse

/-- Decimal rendering of an integer, as Python `str` (and `json.dumps`). -/
def intToChars (n : Int) : List Char :=
  if n < 0 then '-' :: natToChars n.natAbs else natToChars n.natAbs

def intStr (n : Int) : String := ⟨intToChars n⟩

/-- Lowercase hexadecimal digit. -/
def hexChar (n : Nat) : Char :=
  if n = 0 then '0' else if n = 1 then '1' else if n = 2 then '2'
  else if n = 3 then '3' else if n = 4 then '4' else if n = 5 then '5'
  else if n = 6 then '6' else if n = 7 then '7' else if n = 8 then '8'
  else if n = 9 then '9' else if n = 10 then 'a' else if n = 11 then 'b'
  else if n = 12 then 'c' else if n = 13 then 'd' else if n = 14 then 'e' else 'f'

/-- String-character escaping of Python `json.dumps(..., ensure_ascii=False)`:
backslash-escapes for quote, backslash and the short control escapes, a
four-digit `\u00xx` form for the remaining control characters, every other
character literal. -/
def escapeChar (c : Char) : List Char :=
  if c = '"' then ['\\', '"']
  else if c = '\\' then ['\\', '\\']
  else if c = '\x08' then ['\\', 'b']
  else if c = '\x0c' then ['\\', 'f']
  else if c = '\n' then ['\\', 'n']
  else if c = '\r' then ['\\', 'r']
  else if c = '\t' then ['\\', 't']
  else if c.toNat < 32 then
    '\\' :: 'u' :: '0' :: '0' :: [hexChar (c.toNat / 16), hexChar (c.toNat % 16)]
  else [c]

/-- JSON string literal (quotes plus escaped body). -/
def jstringChars (s : String) : List Char :=
  '"' :: (s.data.flatMap escapeChar ++ ['"'])

/- Canonical JSON text of Python `json.dumps` with its default separators
`(", ", ": ")` and `ensure_ascii=False`.  `jdumpsBody`/`jdumpsTail` render
the part of an array after the opening bracket (and `jdumpsObjBody`/
`jdumpsObjTail` the same for objects), so `jdumpsChars (.arr [x, y])`
is the character list of `[x, y]`. -/
mutual

def jdumpsChars : JVal → List Char
  | .null => 'n' :: ['u', 'l', 'l']
  | .bool true => 't' :: ['r', 'u', 'e']
  | .bool false => 'f' :: 'a' :: ['l', 's', 'e']
  | .num n => intToChars n
  | .str s => jstringChars s
  | .arr xs => '[' :: jdumpsBody xs
  | .obj ms => '\x7b' :: jdumpsObjBody ms

def jdumpsBody : List JVal → List Char
  | [] => [']']
  | x :: xs => jdumpsChars x ++ jdumpsTail xs

def jdumpsTail : List JVal → List Char
  | [] => [']']
  | x :: xs => ',' :: ' ' :: (jdumpsChars x ++ jdumpsTail xs)

def jdumpsObjBody : List (String × JVal) → List Char
  | [] => ['\x7d']
  | (k, v) :: ms => jstringChars k ++ ':' :: ' ' :: (jdumpsChars v ++ jdumpsObjTail ms)

def jdumpsObjTail : List (String × JVal) → List Char
  | [] => ['\x7d']
  | (k, v) :: ms =>
    ',' :: ' ' :: (jstringChars k ++ ':' :: ' ' :: (jdumpsChars v ++ jdumpsObjTail ms))

end

def jdumps (v : JVal) : String := ⟨jdumpsChars v⟩

/-- Value of a lowercase/uppercase hexadecimal digit character. -/
def hexVal (c : Char) : Option Nat :=
  if 'a' ≤ c ∧ c ≤ 'f' then some (c.toNat - 97 + 10)
  else if '0' ≤ c ∧ c ≤ '9' then some (c.toNat - 48)
  else if 'A' ≤ c ∧ c ≤ 'F' then some (10 + (c.toNat - 65))
  else none

/-- Decoder for the body of a JSON string literal (after the opening quote),
returning the decoded characters and the input following the closing quote. -/
def parseStringBody : List Char → Option (List Char × List Char)
  | [] => none
  | c :: rest =>
    if c = '"' then some ([], rest)
    else if c = '\\' then
      match rest with
      | [] => none
      | e :: rest2 =>
        if e = '"' then (parseStringBody rest2).map (fun p => ('"' :: p.1, p.2))
        else if e = '\\' then (parseStringBody rest2).map (fun p => ('\\' :: p.1, p.2))
        else if e = 'b' then (parseStringBody rest2).map (fun p => ('\x08' :: p.1, p.2))
        else if e = 'f' then (parseStringBody rest2).map (fun p => ('\x0c' :: p.1, p.2))
        else if e = 'n' then (parseStringBody rest2).map (fun p => ('\n' :: p.1, p.2))
        else if e = 'r' then (parseStringBody rest2).map (fun p => ('\r' :: p.1, p.2))
        else if e = 't' then (parseStringBody rest2).map (fun p => ('\t' :: p.1, p.2))
        else if e = 'u' then
          match rest2 with
          | h1 :: h2 :: h3 :: h4 :: rest3 =>
            match hexVal h1, hexVal h2, hexVal h3, hexVal h4 with
            | some a, some b, some c2, some d =>
              (parseStringBody rest3).map
                (fun p => (Char.ofNat (a * 4096 + b * 256 + c2 * 16 + d) :: p.1, p.2))
            | _, _, _, _ => none
          | _ => none
        else none
    else if c.toNat < 32 then none
    else (parseStringBody rest).map (fun p => (c :: p.1, p.2))

/-- Maximal run of decimal digits at the front of the input. -/
def parseDigits : List Char → List Char × List Char
  | [] => ([], [])
  | c :: rest =>
    if c.isDigit then
      let p := parseDigits rest
      (c :: p.1, p.2)
    else ([], c :: rest)

def digitsVal (ds : List Char) : Nat :=
  ds.foldl (fun a c => a * 10 + (c.toNat - 48)) 0

/-- Decoder for a natural number literal (at least one digit). -/
def parseNat (cs : List Char) : Option (Nat × List Char) :=
  match parseDigits cs with
  | ([], _) => none
  | (ds, rest) => some (digitsVal ds, rest)

/- Fuelled recursive-descent decoder for the canonical JSON text emitted by
`jdumps`.  `parseItems` decodes the part of an array after the opening
bracket (including the closing bracket); `parseMembers` does the same for
objects.  Fuel only bounds the nesting recursion; `jparse` supplies enough
fuel for any input. -/
mutual

def parseVal : Nat → List Char → Option (JVal × List Char)
  | 0, _ => none
  | _ + 1, [] => none
  | fuel + 1, c :: cs =>
    if c = 'n' then
      match cs with
      | 'u' :: ('l' :: 'l' :: rest) => some (.null, rest)
      | _ => none
    else if c = 't' then
      match cs with
      | 'r' :: ('u' :: 'e' :: rest) => some (.bool true, rest)
      | _ => none
    else if c = 'f' then
      match cs with
      | 'a' :: ('l' :: 's' :: 'e' :: rest) => some (.bool false, rest)
      | _ => none
    else if c = '"' then
      (parseStringBody cs).map (fun p => (.str ⟨p.1⟩, p.2))
    else if c = '[' then
      (parseItems fuel cs).map (fun p => (.arr p.1, p.2))
    else if c = '\x7b' then
      (parseMembers fuel cs).map (fun p => (.obj p.1, p.2))
    else if c = '-' then
      (parseNat cs).map (fun p => (.num (-(p.1 : Int)), p.2))
    else if c.isDigit then
      (parseNat (c :: cs)).map (fun p => (.num (p.1 : Int), p.2))
    else none

def parseItems : Nat → List Char → Option (List JVal × List Char)
  | 0, _ => none
  | _ + 1, [] => none
  | fuel + 1, c :: cs =>
    if c = ']' then some ([], cs)
    else
      match parseVal fuel (c :: cs) with
      | none => none
      | some (v, rest) =>
        match rest with
        | ']' :: rest2 => some ([v], rest2)
        | ',' :: ' ' :: rest2 => (parseItems fuel rest2).map (fun p => (v :: p.1, p.2))
        | _ => none

def parseMembers : Nat → List Char → Option (List (String × JVal) × List Char)
  | 0, _ => none
  | _ + 1, [] => none
  | fuel + 1, c :: cs =>
    if c = '\x7d' then some ([], cs)
    else if c = '"' then
      match parseStringBody cs with
      | none => none
      | some (kcs, rest1) =>
        match rest1 with
        | ':' :: ' ' :: rest2 =>
          match parseVal fuel rest2 with
          | none => none
          | some (v, rest3) =>
            match rest3 with
            | '\x7d' :: rest4 => some ([(⟨kcs⟩, v)], rest4)
            | ',' :: ' ' :: rest4 =>
              (parseMembers fuel rest4).map (fun p => ((⟨kcs⟩, v) :: p.1, p.2))
            | _ => none
        | _ => none
    else none

end

/-- JSON decoder: decodes a complete canonical JSON document. -/
def jparse (s : String) : Option JVal :=
  match parseVal (s.data.length + 1) s.data with
  | some (v, []) => some v
  | _ => none

/- Round-trip lemmas: decimal literals. -/

lemma digitChar_isDigit (n : Nat) : (digitChar n).isDigit = true := by
  unfold digitChar
  repeat' split
  all_goals decide

lemma digitChar_toNat (n : Nat) (h : n < 10) : (digitChar n).toNat = 48 + n := by
  interval_cases n <;> decide

lemma natDigitsAux_lt (fuel n d : Nat) (h : d ∈ natDigitsAux fuel n) : d < 10 := by
  induction fuel generalizing n with
  | zero => simp [natDigitsAux] at h
  | succ fuel ih =>
    unfold natDigitsAux at h
    split at h
    · simp at h
    · rcases List.mem_cons.mp h with rfl | h
      · exact Nat.mod_lt _ (by omega)
      · exact ih _ h

lemma natDigitsAux_foldr (fuel n : Nat) (h : n ≤ fuel) :
    (natDigitsAux fuel n).foldr (fun d a => a * 10 + d) 0 = n := by
  induction fuel generalizing n with
  | zero => simp [natDigitsAux]; omega
  | succ fuel ih =>
    unfold natDigitsAux
    split
    · simpa using by omega
    · rename_i hn
      have hdiv : n / 10 ≤ fuel := by
        have := Nat.div_lt_self (by omega : 0 < n) (by omega : 1 < 10)
        omega
      simp only [List.foldr_cons, ih _ hdiv]
      omega

lemma natToChars_ne_nil (n : Nat) : natToChars n ≠ [] := by
  unfold natToChars
  split
  · simp
  · rename_i hn
    intro hcon
    have : natDigitsAux n n ≠ [] := by
      cases n with
      | zero => omega
      | succ m =>
        unfold natDigitsAux
        simp
    simp [List.reverse_eq_nil_iff, List.map_eq_nil_iff] at hcon
    exact this (by simpa [natDigits] using hcon)

lemma natToChars_all_digits (n : Nat) (c : Char) (h : c ∈ natToChars n) :
    c.isDigit = true := by
  unfold natToChars at h
  split at h
  · simp at h
    subst h
    decide
  · rw [List.mem_reverse] at h
    obtain ⟨d, _, rfl⟩ := List.mem_map.mp h
    exact digitChar_isDigit d

lemma foldr_congr_mem {α β : Type} (l : List α) (f g : α → β → β) (b : β)
    (h : ∀ d ∈ l, ∀ a, f d a = g d a) : l.foldr f b = l.foldr g b := by
  induction l with
  | nil => rfl
  | cons y ys ih =>
    simp only [List.foldr_cons]
    rw [ih (fun d hd a => h d (by simp [hd]) a), h y (by simp)]

lemma digitsVal_natToChars (n : Nat) : digitsVal (natToChars n) = n := by
  unfold natToChars digitsVal
  split
  · simp_all
  · rw [List.foldl_reverse, List.foldr_map]
    have := natDigitsAux_foldr n n le_rfl
    calc (natDigits n).foldr (fun d a => a * 10 + ((digitChar d).toNat - 48)) 0
        = (natDigits n).foldr (fun d a => a * 10 + d) 0 := by
          apply foldr_congr_mem
          intro d hd a
          rw [digitChar_toNat d (natDigitsAux_lt n n d hd)]
          omega
      _ = n := this

/-- Head-guard: the input does not continue with a decimal digit (so that the
maximal-munch number decoder stops exactly where the literal ended). -/
def noDigitHead : List Char → Prop
  | [] => True
  | c :: _ => c.isDigit = false

lemma parseDigits_not_digit (rest : List Char) (h : noDigitHead rest) :
    parseDigits rest = ([], rest) := by
  cases rest with
  | nil => rfl
  | cons c r =>
    unfold parseDigits
    simp only [noDigitHead] at h
    simp [h]

lemma parseDigits_append (digs rest : List Char) (hds : ∀ c ∈ digs, c.isDigit = true)
    (hrest : noDigitHead rest) : parseDigits (digs ++ rest) = (digs, rest) := by
  induction digs with
  | nil => simpa using parseDigits_not_digit rest hrest
  | cons c cs ih =>
    have hc : c.isDigit = true := hds c (by simp)
    unfold parseDigits
    simp [hc, ih (fun c' hc' => hds c' (by simp [hc']))]

lemma parseNat_round (n : Nat) (rest : List Char) (hrest : noDigitHead rest) :
    parseNat (natToChars n ++ rest) = some (n, rest) := by
  unfold parseNat
  rw [parseDigits_append _ _ (natToChars_all_digits n) hrest]
  have hne := natToChars_ne_nil n
  cases hchars : natToChars n with
  | nil => exact absurd hchars hne
  | cons c cs =>
    have : digitsVal (c :: cs) = n := by rw [← hchars]; exact digitsVal_natToChars n
    simp [this]

/- Round-trip lemmas: string literals. -/

lemma hexVal_hexChar (n : Nat) (h : n < 16) : hexVal (hexChar n) = some n := by
  interval_cases n <;> decide

lemma parseStringBody_round (s rest : List Char) :
    parseStringBody (s.flatMap escapeChar ++ '"' :: rest) = some (s, rest) := by
  induction s with
  | nil => unfold parseStringBody; simp
  | cons c cs ih =>
    by_cases h1 : c = '"'
    · subst h1; simp [escapeChar]; unfold parseStringBody; simp [ih]
    · by_cases h2 : c = '\\'
      · subst h2; simp [escapeChar]; unfold parseStringBody; simp [ih]
      · by_cases h3 : c = '\x08'
        · subst h3; simp [escapeChar]; unfold parseStringBody; simp [ih]
        · by_cases h4 : c = '\x0c'
          · subst h4; simp [escapeChar]; unfold parseStringBody; simp [ih]
          · by_cases h5 : c = '\n'
            · subst h5; simp [escapeChar]; unfold parseStringBody; simp [ih]
            · by_cases h6 : c = '\r'
              · subst h6; simp [escapeChar]; unfold parseStringBody; simp [ih]
              · by_cases h7 : c = '\t'
                · subst h7; simp [escapeChar]; unfold parseStringBody; simp [ih]
                · by_cases h8 : c.toNat < 32
                  · have hdiv : c.toNat / 16 < 16 := by omega
                    have hmod : c.toNat % 16 < 16 := by omega
                    have hval : c.toNat / 16 * 16 + c.toNat % 16 = c.toNat := by omega
                    simp [escapeChar, h1, h2, h3, h4, h5, h6, h7, h8]
                    unfold parseStringBody
                    have h0 : hexVal '0' = some 0 := by decide
                    simp [hexVal_hexChar _ hdiv, hexVal_hexChar _ hmod, h0, ih, hval,
                      Char.ofNat_toNat]
                  · simp [escapeChar, h1, h2, h3, h4, h5, h6, h7, h8]
                    unfold parseStringBody
                    simp [h1, h2, h8, ih]

/- Size measure used to show the decoder is given enough fuel: one unit of
fuel is consumed at each entry into `parseVal`, `parseItems` and
`parseMembers`, so the fuel needed is bounded by the nesting structure. -/

mutual

def jnodes : JVal → Nat
  | .str _ => 1
  | .num _ => 1
  | .bool _ => 1
  | .null => 1
  | .arr xs => 1 + jnodesList xs
  | .obj ms => 1 + jnodesMembers ms

def jnodesList : List JVal → Nat
  | [] => 1
  | x :: xs => 1 + max (jnodes x) (jnodesList xs)

def jnodesMembers : List (String × JVal) → Nat
  | [] => 1
  | (_, v) :: ms => 1 + max (jnodes v) (jnodesMembers ms)

end

lemma jnodes_pos (v : JVal) : 1 ≤ jnodes v := by
  cases v <;> simp [jnodes]

lemma jnodesList_pos (xs : List JVal) : 1 ≤ jnodesList xs := by
  cases xs <;> simp [jnodesList]

lemma jnodesMembers_pos (ms : List (String × JVal)) : 1 ≤ jnodesMembers ms := by
  cases ms with
  | nil => simp [jnodesMembers]
  | cons m ms => obtain ⟨k, v⟩ := m; simp [jnodesMembers]

/-- Guard on the input that follows a serialized value: when the value is a
number the continuation must not begin with a digit (inside arrays and
objects it begins with a comma or closing bracket, at top level it is empty). -/
def numGuard : JVal → List Char → Prop
  | .num _, rest => noDigitHead rest
  | _, _ => True

lemma digit_not_special (c : Char) (h : c.isDigit = true) :
    c ≠ ']' ∧ c ≠ '-' ∧ c ≠ '\x7b' ∧ c ≠ '[' ∧ c ≠ '"' ∧ c ≠ 'f' ∧ c ≠ 't' ∧ c ≠ 'n' := by
  refine ⟨?n1, ?n2, ?n3, ?n4, ?n5, ?n6, ?n7, ?n8⟩ <;>
    (rintro rfl; exact absurd h (by decide))

lemma jdumpsChars_head_ne_rbracket (v : JVal) (c : Char) (cs : List Char)
    (h : jdumpsChars v = c :: cs) : c ≠ ']' := by
  cases v with
  | null => simp [jdumpsChars] at h; rcases h with ⟨rfl, _⟩; decide
  | bool b => cases b <;> (simp [jdumpsChars] at h; rcases h with ⟨rfl, _⟩; decide)
  | str s => simp [jdumpsChars, jstringChars] at h; rcases h with ⟨rfl, _⟩; decide
  | arr xs => simp [jdumpsChars] at h; rcases h with ⟨rfl, _⟩; decide
  | obj ms => simp [jdumpsChars] at h; rcases h with ⟨rfl, _⟩; decide
  | num n =>
    simp [jdumpsChars, intToChars] at h
    split at h
    · rcases List.cons.injEq .. ▸ h with ⟨rfl, _⟩
      decide
    · have hd : c.isDigit = true := by
        have hc : c ∈ natToChars n.natAbs := by rw [h]; simp
        exact natToChars_all_digits _ c hc
      exact (digit_not_special c hd).1

lemma numGuard_tail (v : JVal) (ys : List JVal) (rest : List Char) :
    numGuard v (jdumpsTail ys ++ rest) := by
  cases v <;> try trivial
  cases ys <;> simp [numGuard, jdumpsTail, noDigitHead]

lemma numGuard_objTail (v : JVal) (ms : List (String × JVal)) (rest : List Char) :
    numGuard v (jdumpsObjTail ms ++ rest) := by
  cases v <;> try trivial
  cases ms with
  | nil => simp [numGuard, jdumpsObjTail, noDigitHead]
  | cons m ms => obtain ⟨k, w⟩ := m; simp [numGuard, jdumpsObjTail, noDigitHead]

lemma jdumpsChars_ne_nil (v : JVal) : jdumpsChars v ≠ [] := by
  cases v with
  | num n =>
    unfold jdumpsChars
    unfold intToChars
    split
    · simp
    · exact natToChars_ne_nil _
  | bool b => cases b <;> simp [jdumpsChars]
  | _ => simp [jdumpsChars, jstringChars]

/-- Main round-trip induction: the decoder, given enough fuel, inverts the
serializer on values, array bodies and object bodies, for any continuation
satisfying the digit guard. -/
lemma parse_round_all (n : Nat) :
    (∀ v : JVal, jnodes v ≤ n → ∀ fuel rest, jnodes v ≤ fuel → numGuard v rest →
       parseVal fuel (jdumpsChars v ++ rest) = some (v, rest)) ∧
    (∀ xs : List JVal, jnodesList xs ≤ n → ∀ fuel rest, jnodesList xs ≤ fuel →
       parseItems fuel (jdumpsBody xs ++ rest) = some (xs, rest)) ∧
    (∀ ms : List (String × JVal), jnodesMembers ms ≤ n → ∀ fuel rest,
       jnodesMembers ms ≤ fuel →
       parseMembers fuel (jdumpsObjBody ms ++ rest) = some (ms, rest)) := by
  induction n with
  | zero =>
    refine ⟨fun v hv => absurd hv (by have := jnodes_pos v; omega),
            fun xs hxs => absurd hxs (by have := jnodesList_pos xs; omega),
            fun ms hms => absurd hms (by have := jnodesMembers_pos ms; omega)⟩
  | succ n ih =>
    obtain ⟨IHv, IHl, IHm⟩ := ih
    refine ⟨?_, ?_, ?_⟩
    · intro v hv fuel rest hfuel hguard
      obtain ⟨f, rfl⟩ : ∃ g, fuel = g + 1 := ⟨fuel - 1, by have := jnodes_pos v; omega⟩
      cases v with
      | null => unfold jdumpsChars; unfold parseVal; simp
      | bool b => cases b <;> (unfold jdumpsChars; unfold parseVal; simp)
      | str s =>
        unfold jdumpsChars
        have hshape : jstringChars s ++ rest
            = '"' :: (s.data.flatMap escapeChar ++ '"' :: rest) := by
          simp [jstringChars]
        rw [hshape]
        unfold parseVal
        simp [parseStringBody_round]
      | num m =>
        have hguard' : noDigitHead rest := hguard
        unfold jdumpsChars
        by_cases hm : m < 0
        · have hminus : intToChars m = '-' :: natToChars m.natAbs := by
            simp [intToChars, hm]
          rw [hminus]
          unfold parseVal
          simp only [List.cons_append]
          rw [show parseNat (natToChars m.natAbs ++ rest) = some (m.natAbs, rest) from
            parseNat_round _ _ hguard']
          have heq : -((m.natAbs : Nat) : Int) = m := by omega
          simp only [Option.map_some']
          rw [heq]
          simp
        · have hnat : intToChars m = natToChars m.natAbs := by
            simp [intToChars, hm]
          rw [hnat]
          obtain ⟨c0, cs0, hx⟩ : ∃ c0 cs0, natToChars m.natAbs = c0 :: cs0 := by
            cases hh : natToChars m.natAbs with
            | nil => exact absurd hh (natToChars_ne_nil _)
            | cons a b => exact ⟨a, b, rfl⟩
          have hd : c0.isDigit = true :=
            natToChars_all_digits _ c0 (by rw [hx]; simp)
          obtain ⟨-, hmin, hob, hb, hq, hf', ht, hn⟩ := digit_not_special c0 hd
          rw [hx]
          unfold parseVal
          simp only [List.cons_append]
          rw [if_neg hn, if_neg ht, if_neg hf', if_neg hq, if_neg hb, if_neg hob,
            if_neg hmin, if_pos hd]
          have hpn : parseNat ((c0 :: cs0) ++ rest) = some (m.natAbs, rest) := by
            rw [← hx]; exact parseNat_round _ _ hguard'
          simp only [List.cons_append] at hpn
          rw [hpn]
          have heq : ((m.natAbs : Nat) : Int) = m := by omega
          simp only [Option.map_some']
          rw [heq]
      | arr xs =>
        have hle : jnodesList xs ≤ n := by
          have : jnodes (JVal.arr xs) = 1 + jnodesList xs := by unfold jnodes; rfl
          omega
        have hfl : jnodesList xs ≤ f := by
          have : jnodes (JVal.arr xs) = 1 + jnodesList xs := by unfold jnodes; rfl
          omega
        unfold jdumpsChars
        unfold parseVal
        simp only [List.cons_append]
        simp [IHl xs hle f rest hfl]
      | obj ms =>
        have hle : jnodesMembers ms ≤ n := by
          have : jnodes (JVal.obj ms) = 1 + jnodesMembers ms := by unfold jnodes; rfl
          omega
        have hfl : jnodesMembers ms ≤ f := by
          have : jnodes (JVal.obj ms) = 1 + jnodesMembers ms := by unfold jnodes; rfl
          omega
        unfold jdumpsChars
        unfold parseVal
        simp only [List.cons_append]
        simp [IHm ms hle f rest hfl]
    · intro xs hxs fuel rest hfuel
      obtain ⟨f, rfl⟩ : ∃ g, fuel = g + 1 :=
        ⟨fuel - 1, by have := jnodesList_pos xs; omega⟩
      cases xs with
      | nil => unfold jdumpsBody; unfold parseItems; simp
      | cons x xs' =>
        obtain ⟨c0, cs0, hx⟩ : ∃ c0 cs0, jdumpsChars x = c0 :: cs0 := by
          cases hh : jdumpsChars x with
          | nil => exact absurd hh (jdumpsChars_ne_nil x)
          | cons a b => exact ⟨a, b, rfl⟩
        have hc0 : c0 ≠ ']' := jdumpsChars_head_ne_rbracket x c0 cs0 hx
        have hnodes : jnodesList (x :: xs') = 1 + max (jnodes x) (jnodesList xs') := by
          simp only [jnodesList]
        have hlx : jnodes x ≤ n := by omega
        have hfx : jnodes x ≤ f := by omega
        have hval := IHv x hlx f (jdumpsTail xs' ++ rest) hfx (numGuard_tail x xs' rest)
        rw [hx] at hval
        simp only [List.cons_append] at hval
        unfold jdumpsBody
        rw [hx]
        unfold parseItems
        simp only [List.cons_append, List.append_assoc]
        rw [if_neg hc0, hval]
        cases xs' with
        | nil => unfold jdumpsTail; simp
        | cons y ys =>
          have hly : jnodesList (y :: ys) ≤ n := by omega
          have hfy : jnodesList (y :: ys) ≤ f := by omega
          have hrec := IHl (y :: ys) hly f rest hfy
          unfold jdumpsBody at hrec
          unfold jdumpsTail
          simp only [List.cons_append, List.append_assoc] at hrec ⊢
          simp [hrec]
    · intro ms hms fuel rest hfuel
      obtain ⟨f, rfl⟩ : ∃ g, fuel = g + 1 :=
        ⟨fuel - 1, by have := jnodesMembers_pos ms; omega⟩
      cases ms with
      | nil => unfold jdumpsObjBody; unfold parseMembers; simp
      | cons m ms' =>
        obtain ⟨k, v⟩ := m
        have hnodes : jnodesMembers ((k, v) :: ms')
            = 1 + max (jnodes v) (jnodesMembers ms') := by
          simp only [jnodesMembers]
        have hlv : jnodes v ≤ n := by omega
        have hfv : jnodes v ≤ f := by omega
        have hval := IHv v hlv f (jdumpsObjTail ms' ++ rest) hfv (numGuard_objTail v ms' rest)
        unfold jdumpsObjBody
        have hshape : (jstringChars k ++ ':' :: ' ' :: (jdumpsChars v ++ jdumpsObjTail ms')) ++ rest
            = '"' :: (k.data.flatMap escapeChar
                ++ '"' :: (':' :: ' ' :: (jdumpsChars v ++ (jdumpsObjTail ms' ++ rest)))) := by
          simp [jstringChars]
        rw [hshape]
        unfold parseMembers
        rw [if_neg (by decide : ¬ ('"' : Char) = '\x7d'), if_pos rfl]
        rw [parseStringBody_round]
        cases ms' with
        | nil =>
          unfold jdumpsObjTail at hval ⊢
          simp only [List.singleton_append] at hval ⊢
          simp [hval]
        | cons m2 ms'' =>
          obtain ⟨k2, v2⟩ := m2
          have hly : jnodesMembers ((k2, v2) :: ms'') ≤ n := by omega
          have hfy : jnodesMembers ((k2, v2) :: ms'') ≤ f := by omega
          have hrec := IHm ((k2, v2) :: ms'') hly f rest hfy
          unfold jdumpsObjBody at hrec
          unfold jdumpsObjTail at hval ⊢
          simp only [List.cons_append, List.append_assoc] at hrec hval ⊢
          simp [hval, hrec]

lemma jdumpsTail_len (xs : List JVal) :
    (jdumpsBody xs).length ≤ (jdumpsTail xs).length ∧ 1 ≤ (jdumpsTail xs).length := by
  cases xs with
  | nil => simp [jdumpsBody, jdumpsTail]
  | cons x xs => simp [jdumpsBody, jdumpsTail]; omega

lemma jdumpsObjTail_len (ms : List (String × JVal)) :
    (jdumpsObjBody ms).length ≤ (jdumpsObjTail ms).length
      ∧ 1 ≤ (jdumpsObjTail ms).length := by
  cases ms with
  | nil => simp [jdumpsObjBody, jdumpsObjTail]
  | cons m ms => obtain ⟨k, v⟩ := m; simp [jdumpsObjBody, jdumpsObjTail]; omega

/-- The fuel measure is bounded by the length of the serialized text, so
`jparse`'s fuel choice is always sufficient. -/
lemma jnodes_le_len (n : Nat) :
    (∀ v, jnodes v ≤ n → jnodes v ≤ (jdumpsChars v).length) ∧
    (∀ xs, jnodesList xs ≤ n → jnodesList xs ≤ (jdumpsBody xs).length) ∧
    (∀ ms, jnodesMembers ms ≤ n → jnodesMembers ms ≤ (jdumpsObjBody ms).length) := by
  induction n with
  | zero =>
    refine ⟨fun v hv => absurd hv (by have := jnodes_pos v; omega),
            fun xs hxs => absurd hxs (by have := jnodesList_pos xs; omega),
            fun ms hms => absurd hms (by have := jnodesMembers_pos ms; omega)⟩
  | succ n ih =>
    obtain ⟨IHv, IHl, IHm⟩ := ih
    refine ⟨?_, ?_, ?_⟩
    · intro v hv
      cases v with
      | null => simp [jnodes, jdumpsChars]
      | bool b => cases b <;> simp [jnodes, jdumpsChars]
      | num m =>
        have h1 : jnodes (JVal.num m) = 1 := by simp [jnodes]
        have h2 := jdumpsChars_ne_nil (JVal.num m)
        have h3 : 1 ≤ (jdumpsChars (JVal.num m)).length := by
          cases hh : jdumpsChars (JVal.num m) with
          | nil => exact absurd hh h2
          | cons a b => simp
        omega
      | str s => simp [jnodes, jdumpsChars, jstringChars]
      | arr xs =>
        have h1 : jnodes (JVal.arr xs) = 1 + jnodesList xs := by simp [jnodes]
        have hle : jnodesList xs ≤ n := by omega
        have := IHl xs hle
        have h2 : jdumpsChars (JVal.arr xs) = '[' :: jdumpsBody xs := by
          simp [jdumpsChars]
        rw [h2]
        simp only [List.length_cons]
        omega
      | obj ms =>
        have h1 : jnodes (JVal.obj ms) = 1 + jnodesMembers ms := by simp [jnodes]
        have hle : jnodesMembers ms ≤ n := by omega
        have := IHm ms hle
        have h2 : jdumpsChars (JVal.obj ms) = '\x7b' :: jdumpsObjBody ms := by
          simp [jdumpsChars]
        rw [h2]
        simp only [List.length_cons]
        omega
    · intro xs hxs
      cases xs with
      | nil => simp [jnodesList, jdumpsBody]
      | cons x xs' =>
        have h1 : jnodesList (x :: xs') = 1 + max (jnodes x) (jnodesList xs') := by
          simp only [jnodesList]
        have hlx : jnodes x ≤ n := by omega
        have hlxs : jnodesList xs' ≤ n := by omega
        have hvx := IHv x hlx
        have hxs' := IHl xs' hlxs
        have htail := jdumpsTail_len xs'
        have hx1 : 1 ≤ (jdumpsChars x).length := by
          cases hh : jdumpsChars x with
          | nil => exact absurd hh (jdumpsChars_ne_nil x)
          | cons a b => simp
        have h2 : jdumpsBody (x :: xs') = jdumpsChars x ++ jdumpsTail xs' := by
          simp [jdumpsBody]
        rw [h2]
        simp only [List.length_append]
        omega
    · intro ms hms
      cases ms with
      | nil => simp [jnodesMembers, jdumpsObjBody]
      | cons m ms' =>
        obtain ⟨k, v⟩ := m
        have h1 : jnodesMembers ((k, v) :: ms')
            = 1 + max (jnodes v) (jnodesMembers ms') := by
          simp only [jnodesMembers]
        have hlv : jnodes v ≤ n := by omega
        have hlms : jnodesMembers ms' ≤ n := by omega
        have hvv := IHv v hlv
        have hms' := IHm ms' hlms
        have htail := jdumpsObjTail_len ms'
        have h2 : jdumpsObjBody ((k, v) :: ms')
            = jstringChars k ++ ':' :: ' ' :: (jdumpsChars v ++ jdumpsObjTail ms') := by
          simp [jdumpsObjBody]
        rw [h2]
        simp only [List.length_append, List.length_cons, jstringChars]
        omega

/-- Decoding the canonical JSON text of any value recovers the value:
`jdumps` loses no structure. -/
theorem jparse_jdumps (v : JVal) : jparse (jdumps v) = some v := by
  have hlen : jnodes v ≤ (jdumpsChars v).length :=
    (jnodes_le_len (jnodes v)).1 v le_rfl
  have hguard : numGuard v [] := by
    cases v <;> trivial
  have h := (parse_round_all (jnodes v)).1 v le_rfl ((jdumpsChars v).length + 1) []
    (by omega) hguard
  rw [List.append_nil] at h
  unfold jparse jdumps
  simp [h]

/- UTF-8 encoding of a string as a byte list (values below 256), as Python
`str.encode("utf-8")` on the unicode scalar values. -/

def utf8EncodeChar (c : Char) : List Nat :=
  let n := c.toNat
  if n < 128 then [n]
  else if n < 2048 then [192 + n / 64, 128 + n % 64]
  else if n < 65536 then [224 + n / 4096, 128 + (n / 64) % 64, 128 + n % 64]
  else [240 + n / 262144, 128 + (n / 4096) % 64, 128 + (n / 64) % 64, 128 + n % 64]

def utf8Encode (s : String) : List Nat := s.data.flatMap utf8EncodeChar

/- SHA-256 (FIPS 180-4), on byte lists, with 32-bit words as naturals
reduced modulo `M32`.  This models Python's `hashlib.sha256`. -/

def M32 : Nat := 4294967296

def rotr32 (x n : Nat) : Nat := (((x <<< (32 - n)) % M32) ||| (x >>> n))

def w32not (x : Nat) : Nat := x ^^^ (M32 - 1)

def shaCh (x y z : Nat) : Nat := (x &&& y) ^^^ (w32not x &&& z)

def shaMaj (x y z : Nat) : Nat := (x &&& y) ^^^ (y &&& z) ^^^ (x &&& z)

def bigS0 (x : Nat) : Nat := rotr32 x 2 ^^^ rotr32 x 13 ^^^ rotr32 x 22

def bigS1 (x : Nat) : Nat := rotr32 x 6 ^^^ rotr32 x 11 ^^^ rotr32 x 25

def smallS0 (x : Nat) : Nat := rotr32 x 7 ^^^ rotr32 x 18 ^^^ (x >>> 3)

def smallS1 (x : Nat) : Nat := rotr32 x 17 ^^^ rotr32 x 19 ^^^ (x >>> 10)

def shaK : List Nat :=
  [1116352408, 1899447441, 3049323471, 3921009573, 961987163,
   1508970993, 2453635748, 2870763221, 3624381080, 310598401,
   607225278, 1426881987, 1925078388, 2162078206, 2614888103,
   3248222580, 3835390401, 4022224774, 264347078, 604807628,
   770255983, 1249150122, 1555081692, 1996064986, 2554220882,
   2821834349, 2952996808, 3210313671, 3336571891, 3584528711,
   113926993, 338241895, 666307205, 773529912, 1294757372,
   1396182291, 1695183700, 1986661051, 2177026350, 2456956037,
   2730485921, 2820302411, 3259730800, 3345764771, 3516065817,
   3600352804, 4094571909, 275423344, 430227734, 506948616,
   659060556, 883997877, 958139571, 1322822218, 1537002063,
   1747873779, 1955562222, 2024104815, 2227730452, 2361852424,
   2428436474, 2756734187, 3204031479, 3329325298]

def shaH0 : List Nat :=
  [1779033703, 3144134277, 1013904242, 2773480762,
   1359893119, 2600822924, 528734635, 1541459225]

/-- Big-endian eight-byte rendering of the bit length. -/
def be8 (n : Nat) : List Nat :=
  [(n >>> 56) % 256, (n >>> 48) % 256, (n >>> 40) % 256, (n >>> 32) % 256,
   (n >>> 24) % 256, (n >>> 16) % 256, (n >>> 8) % 256, n % 256]

def shaPad (msg : List Nat) : List Nat :=
  let len := msg.length
  let zeros := (119 - len % 64) % 64
  msg ++ 128 :: (List.replicate zeros 0 ++ be8 (8 * len))

/-- Big-endian 32-bit words from bytes. -/
def toWords : List Nat → List Nat
  | b1 :: b2 :: b3 :: b4 :: rest =>
    (b1 * 16777216 + b2 * 65536 + b3 * 256 + b4) :: toWords rest
  | _ => []

def wget (w : List Nat) (i : Nat) : Nat := w.getD i 0

/-- Message-schedule extension of the 16 block words to 64. -/
def extendSched (w : List Nat) : Nat → List Nat
  | 0 => w
  | n + 1 =>
    let w' := extendSched w n
    let t := w'.length
    w' ++ [(smallS1 (wget w' (t - 2)) + wget w' (t - 7)
            + smallS0 (wget w' (t - 15)) + wget w' (t - 16)) % M32]

def schedule (w : List Nat) : List Nat := extendSched w 48

def compressStep (st : List Nat) (kw : Nat × Nat) : List Nat :=
  match st with
  | [a, b, c, d, e, f, g, h] =>
    let t1 := (h + bigS1 e + shaCh e f g + kw.1 + kw.2) % M32
    let t2 := (bigS0 a + shaMaj a b c) % M32
    [(t1 + t2) % M32, a, b, c, (d + t1) % M32, e, f, g]
  | other => other

def compressBlock (h : List Nat) (block : List Nat) : List Nat :=
  let w := schedule (toWords block)
  let final := (shaK.zip w).foldl compressStep h
  List.zipWith (fun x y => (x + y) % M32) h final

def chunks64 : Nat → List Nat → List (List Nat)
  | 0, _ => []
  | _ + 1, [] => []
  | fuel + 1, l => l.take 64 :: chunks64 fuel (l.drop 64)

def wordBytes (x : Nat) : List Nat :=
  [(x >>> 24) % 256, (x >>> 16) % 256, (x >>> 8) % 256, x % 256]

def sha256 (msg : List Nat) : List Nat :=
  let padded := shaPad msg
  ((chunks64 padded.length padded).foldl compressBlock shaH0).flatMap wordBytes

/-- HMAC-SHA256 (RFC 2104), modelling Python's `hmac.new(..., hashlib.sha256)`. -/
def hmacSha256 (key msg : List Nat) : List Nat :=
  let k0 := if 64 < key.length then sha256 key else key
  let kp := k0 ++ List.replicate (64 - k0.length) 0
  let ipadded := kp.map (fun b => b ^^^ 0x36)
  let opadded := kp.map (fun b => b ^^^ 0x5c)
  sha256 (opadded ++ sha256 (ipadded ++ msg))

/- Base64 (RFC 4648), modelling Python's `base64.b64encode`. -/

def b64Table : List Char :=
  "ABCDEFGHIJKLMNOPQRSTUVWXYZabcdefghijklmnopqrstuvwxyz0123456789+/".data

def b64c (n : Nat) : Char := b64Table.getD n 'A'

def b64encodeChars : List Nat → List Char
  | [] => []
  | [b1] => [b64c (b1 / 4), b64c (b1 % 4 * 16), '=', '=']
  | [b1, b2] => [b64c (b1 / 4), b64c (b1 % 4 * 16 + b2 / 16), b64c (b2 % 16 * 4), '=']
  | b1 :: b2 :: b3 :: rest =>
    b64c (b1 / 4) :: b64c (b1 % 4 * 16 + b2 / 16) :: b64c (b2 % 16 * 4 + b3 / 64)
      :: b64c (b3 % 64) :: b64encodeChars rest

def b64encode (bs : List Nat) : String := ⟨b64encodeChars bs⟩

/-- Python `str.strip()` with no arguments: remove leading and trailing
whitespace. -/
def pyStrip (s : String) : String :=
  ⟨((s.data.dropWhile Char.isWhitespace).reverse.dropWhile Char.isWhitespace).reverse⟩

/- Model of `urllib.parse.urlparse(url).path`: sanitize (lstrip control or
space characters, remove tab, carriage return and newline), strip the
scheme, strip the netloc, drop the fragment (after the first hash), drop
the query (after the first question mark), and split `;parameters` off the
last path segment.  The bracket-validity checks of `urlsplit`, which do not
affect the returned path, are not modelled.  The `;parameters` split is
applied unconditionally here, whereas CPython applies it only for schemes
in `uses_params` (so for example a `file://` URL with a semicolon in its
last segment keeps it in CPython's path); the split is independent of the
query string on both sides, and the two agree on `http`/`https` URLs such
as the ones this script signs. -/

def lstripControlOrSpace (cs : List Char) : List Char :=
  cs.dropWhile (fun c => c.toNat ≤ 32)

def removeUnsafeUrl (cs : List Char) : List Char :=
  cs.filter (fun c => !(c == '\t' || c == '\r' || c == '\n'))

def isSchemeChar (c : Char) : Bool :=
  c.isAlphanum || c == '+' || c == '-' || c == '.'

/-- Split the input at the first colon, if any. -/
def breakAtColon : List Char → Option (List Char × List Char)
  | [] => none
  | c :: cs =>
    if c = ':' then some ([], cs)
    else (breakAtColon cs).map (fun p => (c :: p.1, p.2))

def splitScheme (cs : List Char) : List Char :=
  match breakAtColon cs with
  | none => cs
  | some (before, after) =>
    if before ≠ [] ∧ (before.headD ' ').isAlpha = true ∧ before.all isSchemeChar = true
    then after else cs

def isNetlocDelim (c : Char) : Bool := c == '/' || c == '?' || c == '#'

def splitNetloc (cs : List Char) : List Char :=
  match cs with
  | c1 :: c2 :: rest =>
    if c1 = '/' ∧ c2 = '/' then rest.dropWhile (fun c => !(isNetlocDelim c)) else cs
  | _ => cs

def dropFragment (cs : List Char) : List Char := cs.takeWhile (fun c => !(c == '#'))

def dropQuery (cs : List Char) : List Char := cs.takeWhile (fun c => !(c == '?'))

def splitparams (p : List Char) : List Char :=
  if p.contains '/' then
    let lastSeg := (p.reverse.takeWhile (fun c => !(c == '/'))).reverse
    let pre := p.take (p.length - lastSeg.length)
    pre ++ lastSeg.takeWhile (fun c => !(c == ';'))
  else p.takeWhile (fun c => !(c == ';'))

def urlparse_path (url : String) : String :=
  ⟨splitparams (dropQuery (dropFragment (splitNetloc (splitScheme
      (removeUnsafeUrl (lstripControlOrSpace url.data))))))⟩

/- Configuration constants of the script (`HIT_FIELDS`, `REQUESTED_TYPES`,
`PAGE_SIZE`, `BASE_URL`) and the first-page URL construction. -/

def PAGE_SIZE : Nat := 500

def HIT_FIELDS : List String := ["title", "web_url"]

def REQUESTED_TYPES : List String := ["serie"]

def BASE_URL : String := "https://live.luigisbox.com"

def CONTENT_TYPE : String := "application/json; charset=utf-8"

def natStr (n : Nat) : String := ⟨natToChars n⟩

/-- Characters never percent-encoded by `urllib.parse.quote` (with an empty
`safe` set, as used by `urlencode`). -/
def isUrlSafe (c : Char) : Bool :=
  c.isAlphanum || c == '_' || c == '.' || c == '-' || c == '~'

def hexUpper (n : Nat) : Char :=
  if n = 0 then '0' else if n = 1 then '1' else if n = 2 then '2'
  else if n = 3 then '3' else if n = 4 then '4' else if n = 5 then '5'
  else if n = 6 then '6' else if n = 7 then '7' else if n = 8 then '8'
  else if n = 9 then '9' else if n = 10 then 'A' else if n = 11 then 'B'
  else if n = 12 then 'C' else if n = 13 then 'D' else if n = 14 then 'E' else 'F'

def percentEncode (b : Nat) : List Char := ['%', hexUpper (b / 16), hexUpper (b % 16)]

/-- Python `urllib.parse.quote_plus`: spaces to plus signs, unsafe characters
percent-encoded bytewise on the UTF-8 encoding. -/
def quote_plus (s : String) : String :=
  ⟨s.data.flatMap (fun c =>
    if c = ' ' then ['+']
    else if isUrlSafe c then [c]
    else (utf8EncodeChar c).flatMap percentEncode)⟩

def urlencode (params : List (String × String)) : String :=
  String.intercalate ("&") (params.map (fun p => quote_plus p.1 ++ "=" ++ quote_plus p.2))

def build_first_page_url : String :=
  let params :=
    (if PAGE_SIZE ≠ 0 then [(("size" : String), natStr PAGE_SIZE)] else [])
    ++ (if HIT_FIELDS ≠ [] then [(("hit_fields" : String), String.intercalate (",") HIT_FIELDS)] else [])
    ++ (if REQUESTED_TYPES ≠ [] then
          [(("requested_types" : String), String.intercalate (",") REQUESTED_TYPES)] else [])
  let endpoint := "/v1/content_export"
  let endpoint2 := if params ≠ [] then endpoint ++ "?" ++ urlencode params else endpoint
  BASE_URL ++ endpoint2

/- The signer (`compute_digest` and `build_signed_headers`).  The Python
code reads the current time inside `build_signed_headers`; the timestamp is
a parameter here, and the credentials (module globals in the script) are
passed explicitly.  `compute_digest`'s `content_type` parameter defaults to
`CONTENT_TYPE` in the script; callers here pass it explicitly. -/

def compute_digest (private_key method endpoint date_str content_type : String) : String :=
  let data := method ++ "\n" ++ content_type ++ "\n" ++ date_str ++ "\n" ++ endpoint
  pyStrip (b64encode (hmacSha256 (utf8Encode private_key) (utf8Encode data)))

structure Headers where
  contentType : String
  date : String
  authorization : String
  acceptEncoding : String
deriving Repr, DecidableEq

def build_signed_headers (public_key private_key full_url date_str method : String) : Headers :=
  let endpoint := urlparse_path full_url
  let digest := compute_digest private_key method endpoint date_str CONTENT_TYPE
  { contentType := CONTENT_TYPE
    date := date_str
    authorization := "ApiAuth " ++ public_key ++ ":" ++ digest
    acceptEncoding := "gzip, deflate" }

/- Data model of the API payloads (spec section 3): catalog objects with the
scalar header fields, an attribute bag and an optional nested array; pages
with nullable-or-missing `total`, `objects` and `links`.  An `Option` field
set to `none` models a missing (or, for `objects`/`links`, JSON-null) key. -/

structure Obj where
  url : Option String
  type : Option String
  exact : Option Bool
  attributes : Option (List (String × JVal))
  nested : Option (List JVal)

structure Link where
  rel : Option String
  href : Option String

structure Page where
  total : Option Int
  objects : Option (List Obj)
  links : Option (List Link)

/-- The scan of `iterate_all_objects` over `data.get("links", []) or []`:
the `href` of the first link whose `rel` is `"next"`, or `none` when no such
link exists or its `href` is missing. -/
def find_next_link : List Link → Option (Option String)
  | [] => none
  | l :: rest => if l.rel = some ("next") then some l.href else find_next_link rest

def next_link_value (p : Page) : Option String :=
  match find_next_link (p.links.getD []) with
  | none => none
  | some h => h

/-- Python falsiness of the scanned `next` link (`if not next_link: break`):
`None` and the empty string both stop the loop. -/
def is_falsy_str : Option String → Bool
  | none => true
  | some s => s == ""

/- The pagination loop of `iterate_all_objects`.  The remote server is a
response function from request index and request URL to the page returned
(the index accounts for server-side cursor state: the same URL may yield
different pages on successive requests).  `fuel` bounds the number of loop
iterations; the result is `none` exactly when fuel runs out, since the
Python loop itself is unbounded.  On success the result carries the
accumulated objects and the number of GET requests issued. -/

def iterate_pages (responses : Nat → String → Page) :
    Nat → Option String → Nat → List Obj → Option (List Obj × Nat)
  | 0, _, _, _ => none
  | _ + 1, none, k, acc => some (acc, k)
  | fuel + 1, some u, k, acc =>
    if u = "" then some (acc, k)
    else
      let page := responses k u
      let acc2 := acc ++ page.objects.getD []
      let nl := next_link_value page
      if is_falsy_str nl then some (acc2, k + 1)
      else iterate_pages responses fuel nl (k + 1) acc2

def iterate_all_objects (responses : Nat → String → Page) (fuel : Nat) :
    Option (List Obj × Nat) :=
  iterate_pages responses fuel (some build_first_page_url) 0 []

/-- The sequence of pages received by `iterate_pages` (same recursion,
collecting each response in request order). -/
def pages_seen (responses : Nat → String → Page) :
    Nat → Option String → Nat → List Page
  | 0, _, _ => []
  | _ + 1, none, _ => []
  | fuel + 1, some u, k =>
    if u = "" then []
    else
      let page := responses k u
      let nl := next_link_value page
      if is_falsy_str nl then [page]
      else page :: pages_seen responses fuel nl (k + 1)

/- The flattener (`collect_attribute_keys` and `write_objects_to_csv`).
A CSV row is modelled as the list of logical cell values handed to
`csv.DictWriter` (CSV quoting round-trips, so cells are plain strings);
the row dictionary being keyed by column name is modelled by the update
function `setCell`, mirroring Python dict assignment. -/

def collect_attribute_keys (objects : List Obj) : List String :=
  List.insertionSort (· ≤ ·)
    ((objects.flatMap (fun o => (o.attributes.getD []).map Prod.fst)).dedup)

/-- `row["url"] = obj.get("url", "")` with the `csv` module's rendering:
a missing field becomes the empty cell. -/
def str_cell : Option String → String
  | none => ""
  | some s => s

/-- The `exact` flag rendered by the `csv` module (`str(True)`, `str(False)`,
empty for a missing field). -/
def exact_cell : Option Bool → String
  | none => ""
  | some true => "True"
  | some false => "False"

/-- An attribute cell: list and dict values are `json.dumps`-ed, scalars are
written as Python `str` renders them (`None` — from a missing key or a JSON
null — becomes the empty cell in the `csv` module). -/
def renderCell : Option JVal → String
  | none => ""
  | some .null => ""
  | some (.bool true) => "True"
  | some (.bool false) => "False"
  | some (.num n) => intStr n
  | some (.str s) => s
  | some (.arr xs) => jdumps (.arr xs)
  | some (.obj ms) => jdumps (.obj ms)

/-- Python dict assignment `row[k] = v` on a row viewed as a map from column
name to cell. -/
def setCell (row : String → String) (k v : String) : String → String :=
  fun k' => if k' = k then v else row k'

/-- The row dictionary built for one object, by the assignment sequence of
`write_objects_to_csv`: initialize every column to the empty string, copy
`url`, `type`, `exact`, write one cell per attribute key, then overwrite
`nested` with the JSON of the nested array. -/
def buildRowFun (attr_keys : List String) (obj : Obj) : String → String :=
  let row0 : String → String := fun _ => ""
  let row1 := setCell row0 ("url") (str_cell obj.url)
  let row2 := setCell row1 ("type") (str_cell obj.type)
  let row3 := setCell row2 ("exact") (exact_cell obj.exact)
  let rowA := attr_keys.foldl
    (fun r key => setCell r key (renderCell ((obj.attributes.getD []).lookup key))) row3
  setCell rowA ("nested") (jdumps (.arr (obj.nested.getD [])))

def fieldnamesOf (objects : List Obj) : List String :=
  ["url", "type", "exact"] ++ collect_attribute_keys objects ++ ["nested"]

/-- The cells of one data row, in header order (`csv.DictWriter` emits
`rowdict[key]` for each fieldname, duplicates included). -/
def rowCells (attr_keys : List String) (obj : Obj) : List String :=
  (["url", "type", "exact"] ++ attr_keys ++ ["nested"]).map (buildRowFun attr_keys obj)

/-- `write_objects_to_csv` as the pair (header row, data rows). -/
def write_objects_to_csv (objects : List Obj) : List String × List (List String) :=
  (fieldnamesOf objects, objects.map (rowCells (collect_attribute_keys objects)))

/- The orchestrator (`export_catalog`): validate the credentials before any
request, then paginate and flatten.  The spec's error taxonomy labels the
credential failure `ConfigurationError` (the script raises `RuntimeError`
with the corresponding message).  `NetEvent` traces the externally
observable steps: the one credential check and each GET request. -/

inductive ExportError where
  | configurationError (msg : String)
deriving Repr, DecidableEq

/-- `not KEY or KEY.startswith("<")` on an optional credential. -/
def placeholder_or_missing : Option String → Bool
  | none => true
  | some s => s == "" || s.startsWith ("<")

def export_catalog (pub priv : Option String) (responses : Nat → String → Page)
    (fuel : Nat) : Except ExportError (Option (List String × List (List String))) :=
  if placeholder_or_missing pub then
    .error (.configurationError ("Please set PUBLIC_KEY at the top of the script."))
  else if placeholder_or_missing priv then
    .error (.configurationError ("Please set PRIVATE_KEY at the top of the script."))
  else
    .ok ((iterate_all_objects responses fuel).map (fun r => write_objects_to_csv r.1))

inductive NetEvent where
  | credCheck
  | httpGet (url : String)
deriving Repr, DecidableEq

/-- The GET requests issued by the pagination loop, in order. -/
def iterate_pages_events (responses : Nat → String → Page) :
    Nat → Option String → Nat → List NetEvent
  | 0, _, _ => []
  | _ + 1, none, _ => []
  | fuel + 1, some u, k =>
    if u = "" then []
    else
      NetEvent.httpGet u ::
        (let page := responses k u
         let nl := next_link_value page
         if is_falsy_str nl then []
         else iterate_pages_events responses fuel nl (k + 1))

/-- Trace of externally observable steps of `export_catalog`: the credential
validation happens first, and no request is issued when it fails. -/
def export_catalog_events (pub priv : Option String)
    (responses : Nat → String → Page) (fuel : Nat) : List NetEvent :=
  NetEvent.credCheck ::
    (if placeholder_or_missing pub || placeholder_or_missing priv then []
     else iterate_pages_events responses fuel (some build_first_page_url) 0)

/- Supporting lemmas about the pagination loop. -/

lemma is_falsy_str_false (h : String) (hh : h ≠ "") : is_falsy_str (some h) = false := by
  simp [is_falsy_str, hh]

lemma iterate_pages_step (responses : Nat → String → Page) (fuel k : Nat)
    (acc : List Obj) (u : String) (hu : u ≠ "") :
    iterate_pages responses (fuel + 1) (some u) k acc =
      (if is_falsy_str (next_link_value (responses k u))
       then some (acc ++ (responses k u).objects.getD [], k + 1)
       else iterate_pages responses fuel (next_link_value (responses k u)) (k + 1)
              (acc ++ (responses k u).objects.getD [])) := by
  simp only [iterate_pages, if_neg hu]

lemma iterate_pages_agree (responses responses' : Nat → String → Page)
    (hsame : ∀ k u, (responses' k u).objects = (responses k u).objects
        ∧ (responses' k u).links = (responses k u).links) :
    ∀ fuel url k acc,
      iterate_pages responses' fuel url k acc = iterate_pages responses fuel url k acc := by
  intro fuel
  induction fuel with
  | zero => intro url k acc; rfl
  | succ fuel ih =>
    intro url k acc
    match url with
    | none => rfl
    | some u =>
      by_cases hu : u = ""
      · simp [iterate_pages, hu]
      · have hobj : (responses' k u).objects = (responses k u).objects := (hsame k u).1
        have hnl : next_link_value (responses' k u) = next_link_value (responses k u) := by
          unfold next_link_value
          rw [(hsame k u).2]
        rw [iterate_pages_step _ _ _ _ _ hu, iterate_pages_step _ _ _ _ _ hu,
          hnl, hobj, ih]

lemma iterate_pages_concat (responses : Nat → String → Page) :
    ∀ fuel url k acc objs n,
      iterate_pages responses fuel url k acc = some (objs, n) →
      objs = acc ++ (pages_seen responses fuel url k).flatMap
        (fun p => p.objects.getD []) := by
  intro fuel
  induction fuel with
  | zero => intro url k acc objs n h; simp [iterate_pages] at h
  | succ fuel ih =>
    intro url k acc objs n h
    match url with
    | none =>
      simp only [iterate_pages] at h
      obtain ⟨rfl, rfl⟩ : acc = objs ∧ k = n := by
        simpa using h
      simp [pages_seen]
    | some u =>
      by_cases hu : u = ""
      · simp only [iterate_pages, if_pos hu] at h
        obtain ⟨rfl, rfl⟩ : acc = objs ∧ k = n := by simpa using h
        simp [pages_seen, hu]
      · rw [iterate_pages_step _ _ _ _ _ hu] at h
        unfold pages_seen
        rw [if_neg hu]
        by_cases hf : is_falsy_str (next_link_value (responses k u)) = true
        · rw [if_pos hf] at h
          obtain ⟨rfl, rfl⟩ : acc ++ (responses k u).objects.getD [] = objs ∧ k + 1 = n := by
            simpa using h
          simp [hf]
        · rw [if_neg hf] at h
          rw [if_neg hf]
          have := ih _ _ _ _ _ h
          simp only [List.flatMap_cons, this, List.append_assoc]

/-- C1: the paginator stops exactly when a page carries no `next` link, and
neither cursor repetition nor `total` decides termination: for any server
behaviour in which the first three responses carry the same `next` href and
the fourth carries none, exactly 4 requests are issued and the loop ends;
and any two servers whose responses differ only in the `total` field give
identical pagination results. -/
theorem C1_stop_only_without_next (responses responses' : Nat → String → Page)
    (h : String) (n : Nat) (hh : h ≠ "")
    (h0 : ∀ u, next_link_value (responses 0 u) = some h)
    (h1 : ∀ u, next_link_value (responses 1 u) = some h)
    (h2 : ∀ u, next_link_value (responses 2 u) = some h)
    (h3 : ∀ u, next_link_value (responses 3 u) = none)
    (hsame : ∀ k u, (responses' k u).objects = (responses k u).objects
        ∧ (responses' k u).links = (responses k u).links) :
    (∃ objs, iterate_all_objects responses (n + 4) = some (objs, 4)) ∧
    iterate_all_objects responses' (n + 4) = iterate_all_objects responses (n + 4) := by
  constructor
  · have hu0 : build_first_page_url ≠ "" := by decide
    unfold iterate_all_objects
    rw [show n + 4 = n + 3 + 1 from by omega]
    rw [iterate_pages_step _ _ _ _ _ hu0, h0, is_falsy_str_false h hh]
    simp only [Bool.false_eq_true, if_false]
    rw [show n + 3 = n + 2 + 1 from by omega]
    rw [iterate_pages_step _ _ _ _ _ hh, h1, is_falsy_str_false h hh]
    simp only [Bool.false_eq_true, if_false]
    rw [show n + 2 = n + 1 + 1 from by omega]
    rw [iterate_pages_step _ _ _ _ _ hh, h2, is_falsy_str_false h hh]
    simp only [Bool.false_eq_true, if_false]
    rw [iterate_pages_step _ _ _ _ _ hh, h3]
    exact ⟨_, rfl⟩
  · unfold iterate_all_objects
    exact iterate_pages_agree responses responses' hsame _ _ _ _

def c1PageNext : Page :=
  { total := some 7, objects := some [],
    links := some [({ rel := some ("next"), href := some ("X") } : Link)] }

def c1PageEnd : Page := { total := none, objects := some [], links := some [] }

def c1Responses : Nat → String → Page := fun k _ => if k < 3 then c1PageNext else c1PageEnd

/-- Same responses with `total` altered on every page. -/
def c1Responses' : Nat → String → Page := fun k u =>
  { c1Responses k u with total := none }

theorem C1_witness :
    (∃ objs, iterate_all_objects c1Responses (0 + 4) = some (objs, 4)) ∧
    iterate_all_objects c1Responses' (0 + 4) = iterate_all_objects c1Responses (0 + 4) := by
  refine C1_stop_only_without_next c1Responses c1Responses' ("X") 0 (by decide)
    (fun u => ?_) (fun u => ?_) (fun u => ?_) (fun u => ?_) (fun k u => ⟨rfl, rfl⟩) <;> rfl

/- Supporting lemmas about the flattener. -/

lemma foldl_setCell (ks : List String) (f : String → String) (r : String → String)
    (k : String) :
    (ks.foldl (fun r' key => setCell r' key (f key)) r) k
      = if k ∈ ks then f k else r k := by
  induction ks generalizing r with
  | nil => simp
  | cons a as ih =>
    simp only [List.foldl_cons]
    rw [ih]
    by_cases hk : k ∈ as
    · simp [hk]
    · by_cases ha : k = a
      · subst ha; simp [hk, setCell]
      · simp [hk, ha, setCell]

/-- Closed form of the row dictionary: the last assignment to a column name
wins, so `nested` always holds the JSON of the nested array, a column named
by an attribute key holds the attribute cell, and only then do the copied
top-level fields show through. -/
lemma buildRowFun_eq (ak : List String) (o : Obj) (k : String) :
    buildRowFun ak o k =
      if k = "nested" then jdumps (.arr (o.nested.getD []))
      else if k ∈ ak then renderCell ((o.attributes.getD []).lookup k)
      else if k = "exact" then exact_cell o.exact
      else if k = "type" then str_cell o.type
      else if k = "url" then str_cell o.url
      else "" := by
  simp only [buildRowFun]
  by_cases hn : k = "nested"
  · simp [setCell, hn]
  · rw [show ∀ (r : String → String) (k0 v : String), setCell r k0 v k
          = if k = k0 then v else r k from fun _ _ _ => rfl]
    rw [if_neg hn]
    rw [foldl_setCell ak (fun key => renderCell ((o.attributes.getD []).lookup key))]
    rw [if_neg hn]
    rfl

lemma collect_attribute_keys_sorted (objects : List Obj) :
    (collect_attribute_keys objects).Sorted (· ≤ ·) :=
  List.sorted_insertionSort _ _

lemma collect_attribute_keys_mem (objects : List Obj) (k : String) :
    k ∈ collect_attribute_keys objects ↔
      ∃ o ∈ objects, k ∈ (o.attributes.getD []).map Prod.fst := by
  unfold collect_attribute_keys
  rw [(List.perm_insertionSort _ _).mem_iff, List.mem_dedup, List.mem_flatMap]

lemma collect_attribute_keys_nodup (objects : List Obj) :
    (collect_attribute_keys objects).Nodup :=
  (List.perm_insertionSort _ _).nodup_iff.mpr (List.nodup_dedup _)

/- C2.  The claim fails in one corner: when some object carries an attribute
literally named `nested`, an object lacking that attribute gets the JSON of
its nested array (written by the final `row["nested"] = ...` assignment and
emitted under both columns of that name), not an empty cell. -/

def c2Obj1 : Obj :=
  { url := some "u1", type := some "t1", exact := some true,
    attributes := some [(("nested" : String), JVal.num 1)], nested := none }

def c2Obj2 : Obj :=
  { url := some "u2", type := some "t2", exact := some false,
    attributes := some [], nested := none }

/-- C2 (counterexample): it is not true that an object lacking an attribute
key always gets an empty cell in that key's column: with objects
`c2Obj1` (attribute `nested := 1`) and `c2Obj2` (no attributes), the cell of
`c2Obj2` in the attribute column `nested` is `"[]"`, not `""`. -/
theorem C2_counterexample :
    ¬ (∀ (objects : List Obj), ∀ o ∈ objects, ∀ k ∈ collect_attribute_keys objects,
        (o.attributes.getD []).lookup k = none →
        buildRowFun (collect_attribute_keys objects) o k = "") := by
  intro hclaim
  have h := hclaim [c2Obj1, c2Obj2] c2Obj2 (by simp) ("nested") (by decide) (by rfl)
  have hval : buildRowFun (collect_attribute_keys [c2Obj1, c2Obj2]) c2Obj2 ("nested")
      = "[]" := by decide
  rw [h] at hval
  exact absurd hval (by decide)

/-- C2 (amended): every emitted row has exactly the header's column count;
the header is the fixed leading columns `url`, `type`, `exact`, then the
lexicographically sorted union of all attribute keys, then `nested`; and an
object lacking an attribute key gets an empty cell in that column — except
a column named `nested`, which holds the JSON of the object's nested array. -/
theorem C2_columns (objects : List Obj) :
    fieldnamesOf objects
      = ["url", "type", "exact"] ++ collect_attribute_keys objects ++ ["nested"] ∧
    (collect_attribute_keys objects).Sorted (· ≤ ·) ∧
    (∀ k, k ∈ collect_attribute_keys objects ↔
        ∃ o ∈ objects, k ∈ (o.attributes.getD []).map Prod.fst) ∧
    (∀ row ∈ (write_objects_to_csv objects).2,
        row.length = (fieldnamesOf objects).length) ∧
    (∀ o ∈ objects, ∀ k ∈ collect_attribute_keys objects,
        (o.attributes.getD []).lookup k = none →
        buildRowFun (collect_attribute_keys objects) o k
          = if k = "nested" then jdumps (.arr (o.nested.getD [])) else "") := by
  refine ⟨rfl, collect_attribute_keys_sorted objects,
    collect_attribute_keys_mem objects, ?_, ?_⟩
  · intro row hrow
    obtain ⟨o, _, rfl⟩ := List.mem_map.mp hrow
    simp [rowCells, fieldnamesOf]
  · intro o _ k hk hnone
    rw [buildRowFun_eq]
    by_cases hn : k = "nested"
    · simp [hn]
    · simp [hn, hk, hnone, renderCell]

def c2WitnessRow : List String :=
  (write_objects_to_csv [c2Obj1, c2Obj2]).2.headD []

theorem C2_witness :
    (∀ row ∈ (write_objects_to_csv [c2Obj1, c2Obj2]).2,
        row.length = (fieldnamesOf [c2Obj1, c2Obj2]).length) ∧
    buildRowFun (collect_attribute_keys [c2Obj1, c2Obj2]) c2Obj2 ("nested")
      = jdumps (.arr []) := by
  refine ⟨(C2_columns [c2Obj1, c2Obj2]).2.2.2.1, ?_⟩
  have h := (C2_columns [c2Obj1, c2Obj2]).2.2.2.2 c2Obj2 (by simp) ("nested")
    (by decide) (by rfl)
  simpa using h

/- C5: the accumulated objects are the concatenation of the received pages'
object lists, in request order and page-internal order, with nothing
deduplicated, and the flattener emits exactly one row per object, in order. -/

/-- C5: on any terminating run, the object sequence handed to the flattener
is the page-order concatenation of the pages' objects (no deduplication),
and the emitted data rows are exactly one row per object, positionally in
input order. -/
theorem C5_concat_order (responses : Nat → String → Page) (fuel : Nat)
    (objs : List Obj) (n : Nat)
    (hrun : iterate_all_objects responses fuel = some (objs, n)) :
    objs = (pages_seen responses fuel (some build_first_page_url) 0).flatMap
        (fun p => p.objects.getD []) ∧
    (write_objects_to_csv objs).2
      = objs.map (rowCells (collect_attribute_keys objs)) ∧
    (write_objects_to_csv objs).2.length = objs.length ∧
    (∀ i : Nat, ((write_objects_to_csv objs).2).get? i
        = (objs.get? i).map (rowCells (collect_attribute_keys objs))) := by
  refine ⟨?_, rfl, by simp [write_objects_to_csv], ?_⟩
  · simpa using iterate_pages_concat responses fuel _ 0 [] objs n hrun
  · intro i
    simp [write_objects_to_csv]

def c5Page1 : Page :=
  { total := some 3,
    objects := some
      [{ url := some "u1", type := none, exact := none, attributes := none, nested := none },
       { url := some "u2", type := none, exact := none, attributes := none, nested := none }],
    links := some [({ rel := some ("next"), href := some ("X") } : Link)] }

def c5Page2 : Page :=
  { total := some 3,
    objects := some
      [{ url := some "u3", type := none, exact := none, attributes := none, nested := none }],
    links := some [] }

def c5Responses : Nat → String → Page := fun k _ => if k = 0 then c5Page1 else c5Page2

theorem C5_witness :
    (c5Page1.objects.getD []) ++ (c5Page2.objects.getD [])
      = (pages_seen c5Responses 2 (some build_first_page_url) 0).flatMap
          (fun p => p.objects.getD []) ∧
    (write_objects_to_csv ((c5Page1.objects.getD []) ++ (c5Page2.objects.getD []))).2.length
      = ((c5Page1.objects.getD []) ++ (c5Page2.objects.getD [])).length := by
  have h := C5_concat_order c5Responses 2
    ((c5Page1.objects.getD []) ++ (c5Page2.objects.getD [])) 2 (by rfl)
  exact ⟨h.1, h.2.2.1⟩

/- C6: missing `objects`/`links` on a page and missing `attributes`/`nested`
on an object are treated as the corresponding empty collections (never an
error — every function here is total): such a page contributes no objects
and, with no links, terminates the loop after its request; such an object
gets empty attribute cells and the empty JSON array in `nested`. -/

/-- C6: a page with `objects` and `links` both missing accumulates nothing
and ends the loop after its own request; an object with missing
`attributes` yields the empty cell in every attribute column (save the
`nested` column, which carries the JSON of the nested array), and a missing
`nested` renders as the empty JSON array `[]`. -/
theorem C6_missing_keys_as_empty (responses : Nat → String → Page)
    (fuel k : Nat) (acc : List Obj) (u : String) (t : Option Int)
    (hu : u ≠ "")
    (hpage : responses k u = { total := t, objects := none, links := none }) :
    iterate_pages responses (fuel + 1) (some u) k acc = some (acc, k + 1) ∧
    (∀ (ak : List String) (o : Obj) (key : String), o.attributes = none → key ∈ ak →
      buildRowFun ak o key
        = if key = "nested" then jdumps (.arr (o.nested.getD [])) else "") ∧
    (∀ (ak : List String) (o : Obj), o.nested = none →
      buildRowFun ak o ("nested") = "[]") := by
  refine ⟨?_, ?_, ?_⟩
  · rw [iterate_pages_step _ _ _ _ _ hu, hpage]
    simp [next_link_value, find_next_link, is_falsy_str]
  · intro ak o key hattr hkey
    rw [buildRowFun_eq]
    by_cases hn : key = "nested"
    · simp [hn]
    · simp [hn, hkey, hattr, renderCell]
  · intro ak o hnested
    rw [buildRowFun_eq, if_pos rfl, hnested]
    rfl

def c6Responses : Nat → String → Page :=
  fun _ _ => { total := none, objects := none, links := none }

def c6Obj : Obj :=
  { url := some "u", type := some "t", exact := none, attributes := none, nested := none }

theorem C6_witness :
    iterate_pages c6Responses 1 (some ("s")) 0 [] = some ([], 1) ∧
    buildRowFun [("color" : String)] c6Obj ("color") = "" ∧
    buildRowFun [("color" : String)] c6Obj ("nested") = "[]" := by
  have h := C6_missing_keys_as_empty c6Responses 0 0 [] ("s") none (by decide) rfl
  refine ⟨h.1, ?_, h.2.2 [("color" : String)] c6Obj rfl⟩
  have h2 := h.2.1 [("color" : String)] c6Obj ("color") rfl (by simp)
  simpa using h2

/- C7: compound attribute values are written as canonical JSON and decode
back losslessly; scalars are written as Python `str` renders them,
not JSON-encoded (a string cell is the bare string, without quotes).
This fails for an attribute literally named `nested`: the final
`row["nested"] = json.dumps(obj.get("nested", []))` assignment overwrites
that cell, so such an attribute's value reaches no cell — the same corner
that forces C2's correction. -/

def isCompound : JVal → Bool
  | .arr _ => true
  | .obj _ => true
  | _ => false

/-- Python `str` of a decoded scalar as the `csv` module writes it
(`None` becomes the empty cell). -/
def scalarText : JVal → String
  | .null => ""
  | .bool true => "True"
  | .bool false => "False"
  | .num n => intStr n
  | .str s => s
  | .arr xs => jdumps (.arr xs)
  | .obj ms => jdumps (.obj ms)

def c7NestedObj : Obj :=
  { url := some "u", type := some "t", exact := some true,
    attributes := some [(("nested" : String), JVal.arr [JVal.num 1, JVal.num 2])],
    nested := some [JVal.num 9] }

/-- C7 (counterexample): it is not true that every compound attribute
value's canonical JSON is written into its cell: for an attribute literally
named `nested` holding the array `[1, 2]`, the final `row["nested"]`
assignment overwrites that cell with the JSON of the object's nested array
(here `"[9]"`), so the attribute's canonical JSON text reaches no cell. -/
theorem C7_counterexample :
    ¬ (∀ (ak : List String) (o : Obj) (attrs : List (String × JVal)) (k : String)
        (v : JVal),
        o.attributes = some attrs → k ∈ ak → attrs.lookup k = some v →
        isCompound v = true → buildRowFun ak o k = jdumps v) := by
  intro hclaim
  have h := hclaim [("nested" : String)] c7NestedObj
    [(("nested" : String), JVal.arr [JVal.num 1, JVal.num 2])] ("nested")
    (JVal.arr [JVal.num 1, JVal.num 2]) rfl (by simp) (by rfl) rfl
  have hval : buildRowFun [("nested" : String)] c7NestedObj ("nested") = "[9]" := by
    decide
  rw [h] at hval
  exact absurd hval (by decide)

/-- C7 (amended): for an attribute key other than `nested`, a compound
value's cell is its canonical JSON text and decoding that cell recovers the
value exactly, while a scalar value's cell is the scalar converted to text
— in particular a string value is written bare, not JSON-encoded; an
attribute key named `nested` reaches no cell, because that column always
holds the JSON of the object's `nested` array. -/
theorem C7_compound_roundtrip (o : Obj) (attrs : List (String × JVal))
    (ak : List String) (k : String) (v : JVal)
    (ho : o.attributes = some attrs) (hk : k ∈ ak) (hn : k ≠ "nested")
    (hv : attrs.lookup k = some v) :
    (isCompound v = true →
      buildRowFun ak o k = jdumps v ∧ jparse (jdumps v) = some v) ∧
    (isCompound v = false → buildRowFun ak o k = scalarText v) ∧
    (∀ s, v = JVal.str s → buildRowFun ak o k = s) ∧
    buildRowFun ak o ("nested") = jdumps (.arr (o.nested.getD [])) := by
  have hcell : buildRowFun ak o k = renderCell (some v) := by
    rw [buildRowFun_eq, if_neg hn, if_pos hk, ho]
    simp [hv]
  refine ⟨fun hc => ⟨?_, jparse_jdumps v⟩, fun hc => ?_, fun s hs => ?_, ?_⟩
  · rw [hcell]
    cases v with
    | arr xs => rfl
    | obj ms => rfl
    | null => exact absurd hc (by simp [isCompound])
    | bool b => exact absurd hc (by simp [isCompound])
    | num n => exact absurd hc (by simp [isCompound])
    | str s => exact absurd hc (by simp [isCompound])
  · rw [hcell]
    cases v with
    | bool b => cases b <;> rfl
    | _ => rfl
  · subst hs
    rw [hcell]
    rfl
  · rw [buildRowFun_eq, if_pos rfl]

def c7Obj : Obj :=
  { url := some "u", type := some "t", exact := some true,
    attributes := some [(("payload" : String), JVal.arr [JVal.num 1, JVal.str "x"])],
    nested := none }

theorem C7_witness :
    buildRowFun [("payload" : String)] c7Obj ("payload")
        = jdumps (JVal.arr [JVal.num 1, JVal.str "x"]) ∧
    jparse (jdumps (JVal.arr [JVal.num 1, JVal.str "x"]))
        = some (JVal.arr [JVal.num 1, JVal.str "x"]) := by
  exact (C7_compound_roundtrip c7Obj [(("payload" : String), JVal.arr [JVal.num 1, JVal.str "x"])]
    [("payload" : String)] ("payload") (JVal.arr [JVal.num 1, JVal.str "x"])
    rfl (by simp) (by decide) rfl).1 rfl

/- C10: an attribute key that collides with a fixed column name overwrites
the copied top-level value in the row dictionary (assignment order), the
header then lists that column name twice, and an attribute named `nested`
is itself overwritten by the JSON of the object's nested array. -/

lemma mem_of_lookup_some {β : Type} (ps : List (String × β)) (k : String) (v : β)
    (h : ps.lookup k = some v) : (k, v) ∈ ps := by
  induction ps with
  | nil => simp [List.lookup] at h
  | cons p rest ih =>
    obtain ⟨k', b⟩ := p
    unfold List.lookup at h
    by_cases hb : k = k'
    · subst hb
      rw [show (k == k) = true by simp] at h
      obtain rfl : b = v := by simpa using h
      exact List.mem_cons_self _ _
    · have hbeq : (k == k') = false := by simp [hb]
      rw [hbeq] at h
      exact List.mem_cons_of_mem _ (ih h)

/-- C10: when an object's attribute bag contains a key named `url`, `type`
or `exact`, the row's cell under that column name is the rendered attribute
value (not the top-level field), and the header contains that column name
exactly twice; an attribute key named `nested` is instead overwritten by
the JSON of the object's `nested` array. -/
theorem C10_attr_overrides_fixed (objects : List Obj) (o : Obj) (k : String) (v : JVal)
    (ho : o ∈ objects)
    (hk : k = "url" ∨ k = "type" ∨ k = "exact")
    (hv : (o.attributes.getD []).lookup k = some v) :
    buildRowFun (collect_attribute_keys objects) o k = renderCell (some v) ∧
    (fieldnamesOf objects).count k = 2 ∧
    (∀ (o' : Obj) (nv : JVal), (o'.attributes.getD []).lookup ("nested") = some nv →
      buildRowFun (collect_attribute_keys objects) o' ("nested")
        = jdumps (.arr (o'.nested.getD []))) := by
  have hkn : k ≠ "nested" := by rcases hk with rfl | rfl | rfl <;> decide
  have hmem : k ∈ collect_attribute_keys objects := by
    rw [collect_attribute_keys_mem]
    exact ⟨o, ho, List.mem_map.mpr ⟨(k, v), mem_of_lookup_some _ _ _ hv, rfl⟩⟩
  refine ⟨?_, ?_, ?_⟩
  · rw [buildRowFun_eq, if_neg hkn, if_pos hmem, hv]
  · have hcount1 : (collect_attribute_keys objects).count k = 1 :=
      List.count_eq_one_of_mem (collect_attribute_keys_nodup objects) hmem
    have hfixed : (["url", "type", "exact"] : List String).count k = 1 := by
      rcases hk with rfl | rfl | rfl <;> decide
    have hlast : (["nested"] : List String).count k = 0 := by
      simp [List.count_cons, List.count_nil, hkn]
    rw [show fieldnamesOf objects
        = ["url", "type", "exact"] ++ (collect_attribute_keys objects ++ ["nested"]) from rfl]
    rw [List.count_append, List.count_append, hfixed, hcount1, hlast]
  · intro o' nv _
    rw [buildRowFun_eq, if_pos rfl]

def c10Obj : Obj :=
  { url := some "top-level", type := some "t", exact := some true,
    attributes := some [(("url" : String), JVal.str "from-attributes")],
    nested := none }

theorem C10_witness :
    buildRowFun (collect_attribute_keys [c10Obj]) c10Obj ("url")
        = renderCell (some (JVal.str "from-attributes")) ∧
    (fieldnamesOf [c10Obj]).count ("url") = 2 := by
  have h := C10_attr_overrides_fixed [c10Obj] c10Obj ("url")
    (JVal.str "from-attributes") (by simp) (Or.inl rfl) (by rfl)
  exact ⟨h.1, h.2.1⟩

/- C3: the digest and the Authorization header.  The `.strip()` that the
script applies to the Base64 text is the identity there, because Base64
output contains no whitespace. -/

lemma b64c_not_ws (n : Nat) : (b64c n).isWhitespace = false := by
  by_cases h : n < 64
  · have hall : ∀ m, m < 64 → (b64c m).isWhitespace = false := by decide
    exact hall n h
  · unfold b64c
    rw [List.getD_eq_default]
    · decide
    · have : b64Table.length = 64 := by decide
      omega

lemma b64encodeChars_not_ws : ∀ (n : Nat) (bs : List Nat), bs.length ≤ n →
    ∀ c ∈ b64encodeChars bs, c.isWhitespace = false := by
  intro n
  induction n with
  | zero =>
    intro bs hlen c hc
    obtain rfl : bs = [] := List.length_eq_zero.mp (by omega)
    simp [b64encodeChars] at hc
  | succ n ih =>
    intro bs hlen c hc
    rcases bs with _ | ⟨b1, _ | ⟨b2, _ | ⟨b3, rest⟩⟩⟩
    · simp [b64encodeChars] at hc
    · simp only [b64encodeChars] at hc
      rcases (by simpa using hc : c = b64c (b1 / 4) ∨ c = b64c (b1 % 4 * 16) ∨ c = '=') with
        rfl | rfl | rfl
      · exact b64c_not_ws _
      · exact b64c_not_ws _
      · decide
    · simp only [b64encodeChars] at hc
      rcases (by simpa using hc : c = b64c (b1 / 4) ∨ c = b64c (b1 % 4 * 16 + b2 / 16)
          ∨ c = b64c (b2 % 16 * 4) ∨ c = '=') with rfl | rfl | rfl | rfl
      · exact b64c_not_ws _
      · exact b64c_not_ws _
      · exact b64c_not_ws _
      · decide
    · simp only [b64encodeChars, List.mem_cons] at hc
      rcases hc with rfl | rfl | rfl | rfl | hmem
      · exact b64c_not_ws _
      · exact b64c_not_ws _
      · exact b64c_not_ws _
      · exact b64c_not_ws _
      · exact ih rest (by simp at hlen; omega) c hmem

lemma dropWhile_eq_self_of_not (l : List Char) (p : Char → Bool)
    (h : ∀ c ∈ l, p c = false) : l.dropWhile p = l := by
  cases l with
  | nil => rfl
  | cons c cs =>
    rw [List.dropWhile_cons, h c (by simp)]
    simp

lemma pyStrip_b64encode (bs : List Nat) : pyStrip (b64encode bs) = b64encode bs := by
  have hnw : ∀ c ∈ b64encodeChars bs, c.isWhitespace = false :=
    b64encodeChars_not_ws bs.length bs le_rfl
  unfold pyStrip b64encode
  rw [dropWhile_eq_self_of_not _ _ hnw]
  rw [dropWhile_eq_self_of_not _ _ (fun c hc => hnw c (List.mem_reverse.mp hc))]
  rw [List.reverse_reverse]

/-- C3: the Authorization header is `ApiAuth {publicKey}:{digest}` with the
digest equal to Base64 of the HMAC-SHA256, under the private key, of
`METHOD\nCONTENT_TYPE\nDATE\nENDPOINT`, where the content type is the fixed
constant `application/json; charset=utf-8` (the script sends only
body-less GETs, yet always signs with this constant). -/
theorem C3_digest_formula (pub priv full_url date_str method : String) :
    compute_digest priv method (urlparse_path full_url) date_str CONTENT_TYPE
      = b64encode (hmacSha256 (utf8Encode priv)
          (utf8Encode (method ++ "\n" ++ CONTENT_TYPE ++ "\n" ++ date_str ++ "\n"
            ++ urlparse_path full_url))) ∧
    (build_signed_headers pub priv full_url date_str method).authorization
      = "ApiAuth " ++ pub ++ ":"
        ++ b64encode (hmacSha256 (utf8Encode priv)
            (utf8Encode (method ++ "\n" ++ CONTENT_TYPE ++ "\n" ++ date_str ++ "\n"
              ++ urlparse_path full_url))) ∧
    (build_signed_headers pub priv full_url date_str method).contentType = CONTENT_TYPE ∧
    CONTENT_TYPE = "application/json; charset=utf-8" := by
  have hd : compute_digest priv method (urlparse_path full_url) date_str CONTENT_TYPE
      = b64encode (hmacSha256 (utf8Encode priv)
          (utf8Encode (method ++ "\n" ++ CONTENT_TYPE ++ "\n" ++ date_str ++ "\n"
            ++ urlparse_path full_url))) := by
    unfold compute_digest
    rw [pyStrip_b64encode]
  refine ⟨hd, ?_, rfl, rfl⟩
  show "ApiAuth " ++ pub ++ ":"
      ++ compute_digest priv method (urlparse_path full_url) date_str CONTENT_TYPE = _
  rw [hd]

/- C8: credential validation (missing or `<`-placeholder keys) fails with
the configuration error, happens exactly once, and precedes every network
request. -/

lemma iterate_pages_events_all_get (responses : Nat → String → Page) :
    ∀ fuel url k, ∀ e ∈ iterate_pages_events responses fuel url k,
      ∃ u, e = NetEvent.httpGet u := by
  intro fuel
  induction fuel with
  | zero => intro url k e he; simp [iterate_pages_events] at he
  | succ fuel ih =>
    intro url k e he
    match url with
    | none => simp [iterate_pages_events] at he
    | some u =>
      by_cases hu : u = ""
      · simp [iterate_pages_events, hu] at he
      · simp only [iterate_pages_events, if_neg hu] at he
        rcases List.mem_cons.mp he with rfl | hmem
        · exact ⟨u, rfl⟩
        · by_cases hf : is_falsy_str (next_link_value (responses k u)) = true
          · simp [hf] at hmem
          · rw [if_neg hf] at hmem
            exact ih _ _ e hmem

/-- C8: with a missing or placeholder credential the export fails with the
configuration error and issues no request; the credential check occurs
exactly once per run, as the first observable step, with every later step a
GET request — so it is never repeated per page. -/
theorem C8_creds_checked_once_before_network (pub priv : Option String)
    (responses : Nat → String → Page) (fuel : Nat) :
    ((placeholder_or_missing pub || placeholder_or_missing priv) = true →
      (∃ m, export_catalog pub priv responses fuel
          = Except.error (ExportError.configurationError m)) ∧
      export_catalog_events pub priv responses fuel = [NetEvent.credCheck]) ∧
    (export_catalog_events pub priv responses fuel).count NetEvent.credCheck = 1 ∧
    (∃ rest, export_catalog_events pub priv responses fuel = NetEvent.credCheck :: rest ∧
        ∀ e ∈ rest, ∃ u, e = NetEvent.httpGet u) := by
  refine ⟨?_, ?_, ?_⟩
  · intro hbad
    constructor
    · unfold export_catalog
      by_cases hp : placeholder_or_missing pub = true
      · rw [if_pos hp]
        exact ⟨_, rfl⟩
      · have hq : placeholder_or_missing priv = true := by
          rcases Bool.or_eq_true_iff.mp hbad with h | h
          · exact absurd h hp
          · exact h
        rw [if_neg hp, if_pos hq]
        exact ⟨_, rfl⟩
    · unfold export_catalog_events
      rw [if_pos hbad]
  · unfold export_catalog_events
    have hzero : (if (placeholder_or_missing pub || placeholder_or_missing priv) = true
        then ([] : List NetEvent)
        else iterate_pages_events responses fuel (some build_first_page_url) 0).count
          NetEvent.credCheck = 0 := by
      split
      · rfl
      · rw [List.count_eq_zero]
        intro hmem
        obtain ⟨u, hu⟩ := iterate_pages_events_all_get responses fuel _ 0 _ hmem
        simp at hu
    simp only [List.count_cons]
    rw [hzero]
    simp
  · refine ⟨_, rfl, fun e he => ?_⟩
    by_cases hb : (placeholder_or_missing pub || placeholder_or_missing priv) = true
    · rw [if_pos hb] at he
      simp at he
    · rw [if_neg hb] at he
      exact iterate_pages_events_all_get responses fuel _ 0 e he

theorem C8_witness :
    (∃ m, export_catalog none (some ("secret")) c6Responses 4
        = Except.error (ExportError.configurationError m)) ∧
    export_catalog_events none (some ("secret")) c6Responses 4 = [NetEvent.credCheck] ∧
    (export_catalog_events none (some ("secret")) c6Responses 4).count NetEvent.credCheck
      = 1 := by
  have h := C8_creds_checked_once_before_network none (some ("secret")) c6Responses 4
  exact ⟨(h.1 rfl).1, (h.1 rfl).2, h.2.1⟩

/- C9: a `next` entry with a missing, null or empty `href` terminates the
loop exactly as if no `next` link were present, and only the first
`rel == "next"` entry in `links` order is consulted. -/

/-- C9: when the first `next` entry's href is absent or empty the loop stops
after this request with the page's objects accumulated — the same outcome
as for a page whose `links` carry no `next` entry at all — and the link
scan returns the first `rel == "next"` entry's href, whatever follows it. -/
theorem C9_falsy_next_href (responses : Nat → String → Page)
    (fuel k : Nat) (acc : List Obj) (u : String) (hu : u ≠ "")
    (hfalsy : next_link_value (responses k u) = none
        ∨ next_link_value (responses k u) = some "") :
    iterate_pages responses (fuel + 1) (some u) k acc
      = some (acc ++ (responses k u).objects.getD [], k + 1) ∧
    (∀ responses₂ : Nat → String → Page,
      (responses₂ k u).objects = (responses k u).objects →
      (responses₂ k u).links = some [] →
      iterate_pages responses₂ (fuel + 1) (some u) k acc
        = iterate_pages responses (fuel + 1) (some u) k acc) ∧
    (∀ (h : Option String) (rest : List Link),
      find_next_link (({ rel := some ("next"), href := h } : Link) :: rest) = some h) := by
  have hstep : iterate_pages responses (fuel + 1) (some u) k acc
      = some (acc ++ (responses k u).objects.getD [], k + 1) := by
    rw [iterate_pages_step _ _ _ _ _ hu]
    rcases hfalsy with hf | hf <;> rw [hf] <;> simp [is_falsy_str]
  refine ⟨hstep, ?_, ?_⟩
  · intro r2 hobj hlinks
    rw [iterate_pages_step _ _ _ _ _ hu, hobj]
    have hn2 : next_link_value (r2 k u) = none := by
      unfold next_link_value
      rw [hlinks]
      rfl
    rw [hn2, hstep]
    simp [is_falsy_str]
  · intro h rest
    unfold find_next_link
    simp

def c9Page : Page :=
  { total := some 5, objects := some [],
    links := some [({ rel := some ("next"), href := none } : Link),
                   ({ rel := some ("next"), href := some ("Y") } : Link)] }

def c9Responses : Nat → String → Page := fun _ _ => c9Page

theorem C9_witness :
    iterate_pages c9Responses 1 (some ("s")) 0 []
      = some (([] : List Obj) ++ (c9Page.objects.getD []), 1) ∧
    find_next_link (({ rel := some ("next"), href := none } : Link)
        :: [({ rel := some ("next"), href := some ("Y") } : Link)]) = some none := by
  have h := C9_falsy_next_href c9Responses 0 0 [] ("s") (by decide) (Or.inl rfl)
  exact ⟨h.1, h.2.2 none [({ rel := some ("next"), href := some ("Y") } : Link)]⟩

/- C4: the endpoint fed into the signature is the URL path only; the query
string never reaches the signed payload.  The proof walks the `urlparse`
pipeline and shows every stage up to the query split is unchanged by what
follows the first question mark. -/

lemma dropWhile_append_head_false {p : Char → Bool} (a x : List Char) (c0 : Char)
    (hc : p c0 = false) : (a ++ c0 :: x).dropWhile p = a.dropWhile p ++ c0 :: x := by
  induction a with
  | nil => simp [List.dropWhile_cons, hc]
  | cons c cs ih =>
    by_cases h : p c
    · simp [List.dropWhile_cons, h, ih]
    · simp [List.dropWhile_cons, h]

lemma takeWhile_append_of_all {p : Char → Bool} (a x : List Char)
    (ha : ∀ c ∈ a, p c = true) : (a ++ x).takeWhile p = a ++ x.takeWhile p := by
  induction a with
  | nil => simp
  | cons c cs ih =>
    simp [List.takeWhile_cons, ha c (by simp),
      ih (fun c' hc' => ha c' (by simp [hc']))]

lemma takeWhile_append_stop {p : Char → Bool} (a x : List Char) (c0 : Char)
    (ha : ∀ c ∈ a, p c = true) (hc : p c0 = false) :
    (a ++ c0 :: x).takeWhile p = a := by
  rw [takeWhile_append_of_all a _ ha]
  simp [List.takeWhile_cons, hc]

lemma breakAtColon_decomp (a : List Char) :
    ∀ b r, breakAtColon a = some (b, r) → a = b ++ ':' :: r := by
  induction a with
  | nil => intro b r h; simp [breakAtColon] at h
  | cons c cs ih =>
    intro b r h
    simp only [breakAtColon] at h
    by_cases hc : c = ':'
    · subst hc
      rw [if_pos rfl] at h
      simp at h
      obtain ⟨rfl, rfl⟩ := h
      rfl
    · rw [if_neg hc] at h
      cases hbk : breakAtColon cs with
      | none => rw [hbk] at h; simp at h
      | some p =>
        rw [hbk] at h
        obtain ⟨b', r'⟩ := p
        simp at h
        obtain ⟨rfl, rfl⟩ := h
        rw [List.cons_append, ih b' r' hbk]

lemma breakAtColon_append_some (a x b r : List Char)
    (h : breakAtColon a = some (b, r)) : breakAtColon (a ++ x) = some (b, r ++ x) := by
  induction a generalizing b with
  | nil => simp [breakAtColon] at h
  | cons c cs ih =>
    simp only [breakAtColon] at h
    simp only [List.cons_append, breakAtColon]
    by_cases hc : c = ':'
    · rw [if_pos hc] at h
      rw [if_pos hc]
      simp at h
      obtain ⟨rfl, rfl⟩ := h
      rfl
    · rw [if_neg hc] at h
      rw [if_neg hc]
      cases hbk : breakAtColon cs with
      | none => rw [hbk] at h; simp at h
      | some p =>
        rw [hbk] at h
        obtain ⟨b', r'⟩ := p
        simp at h
        obtain ⟨rfl, rfl⟩ := h
        simp only [List.append_eq]
        rw [ih b' hbk]
        rfl

lemma breakAtColon_append_none (a x : List Char) (h : breakAtColon a = none) :
    breakAtColon (a ++ x) = (breakAtColon x).map (fun p => (a ++ p.1, p.2)) := by
  induction a with
  | nil => simp
  | cons c cs ih =>
    simp only [breakAtColon] at h
    simp only [List.cons_append, breakAtColon]
    by_cases hc : c = ':'
    · rw [if_pos hc] at h
      simp at h
    · rw [if_neg hc] at h
      rw [if_neg hc]
      have hbk : breakAtColon cs = none := by
        cases hb : breakAtColon cs with
        | none => rfl
        | some p => rw [hb] at h; simp at h
      simp only [List.append_eq]
      rw [ih hbk]
      cases breakAtColon x with
      | none => rfl
      | some p => rfl

lemma splitScheme_eq_some (cs b r : List Char) (h : breakAtColon cs = some (b, r)) :
    splitScheme cs
      = if b ≠ [] ∧ (b.headD ' ').isAlpha = true ∧ b.all isSchemeChar = true
        then r else cs := by
  unfold splitScheme
  rw [h]

lemma splitScheme_eq_none (cs : List Char) (h : breakAtColon cs = none) :
    splitScheme cs = cs := by
  unfold splitScheme
  rw [h]

lemma sanitize_append (ud qd : List Char) :
    removeUnsafeUrl (lstripControlOrSpace (ud ++ '?' :: qd))
      = removeUnsafeUrl (lstripControlOrSpace ud) ++ '?' :: removeUnsafeUrl qd := by
  unfold lstripControlOrSpace removeUnsafeUrl
  rw [dropWhile_append_head_false _ _ _ (by decide)]
  rw [List.filter_append, List.filter_cons]
  simp

lemma splitScheme_append (a : List Char) :
    ∃ a', (∀ c ∈ a', c ∈ a) ∧ ∀ q, splitScheme (a ++ '?' :: q) = a' ++ '?' :: q := by
  cases hbk : breakAtColon a with
  | some p =>
    obtain ⟨b, r⟩ := p
    have hdec := breakAtColon_decomp a b r hbk
    by_cases hcond : b ≠ [] ∧ (b.headD ' ').isAlpha = true ∧ b.all isSchemeChar = true
    · refine ⟨r, ?_, fun q => ?_⟩
      · intro c hc
        rw [hdec]
        simp [hc]
      · rw [splitScheme_eq_some _ b (r ++ '?' :: q)
          (breakAtColon_append_some a ('?' :: q) b r hbk)]
        rw [if_pos hcond]
    · refine ⟨a, fun c hc => hc, fun q => ?_⟩
      rw [splitScheme_eq_some _ b (r ++ '?' :: q)
          (breakAtColon_append_some a ('?' :: q) b r hbk)]
      rw [if_neg hcond]
  | none =>
    refine ⟨a, fun c hc => hc, fun q => ?_⟩
    have hbase := breakAtColon_append_none a ('?' :: q) hbk
    cases hbq : breakAtColon q with
    | none =>
      have hnone : breakAtColon (a ++ '?' :: q) = none := by
        rw [hbase]
        simp only [breakAtColon]
        rw [if_neg (by decide : ¬ ('?' : Char) = ':'), hbq]
        rfl
      rw [splitScheme_eq_none _ hnone]
    | some p =>
      obtain ⟨bq, rq⟩ := p
      have hsome : breakAtColon (a ++ '?' :: q) = some (a ++ '?' :: bq, rq) := by
        rw [hbase]
        simp only [breakAtColon]
        rw [if_neg (by decide : ¬ ('?' : Char) = ':'), hbq]
        rfl
      rw [splitScheme_eq_some _ _ _ hsome]
      rw [if_neg ?hfneg]
      case hfneg =>
        rintro ⟨-, -, hall⟩
        have := List.all_eq_true.mp hall '?' (by simp)
        exact absurd this (by decide)

lemma splitNetloc_two (c1 c2 : Char) (rest : List Char) :
    splitNetloc (c1 :: c2 :: rest)
      = if c1 = '/' ∧ c2 = '/' then rest.dropWhile (fun c => !(isNetlocDelim c))
        else c1 :: c2 :: rest := rfl

lemma splitNetloc_append (a : List Char) :
    ∃ a', (∀ c ∈ a', c ∈ a) ∧ ∀ q, splitNetloc (a ++ '?' :: q) = a' ++ '?' :: q := by
  match a with
  | [] =>
    refine ⟨[], by simp, fun q => ?_⟩
    cases q with
    | nil => rfl
    | cons c q' =>
      show splitNetloc ('?' :: c :: q') = '?' :: c :: q'
      rw [splitNetloc_two]
      rw [if_neg (fun h => absurd h.1 (by decide))]
  | [c1] =>
    refine ⟨[c1], by simp, fun q => ?_⟩
    show splitNetloc (c1 :: '?' :: q) = c1 :: '?' :: q
    rw [splitNetloc_two]
    rw [if_neg (fun h => absurd h.2 (by decide))]
  | c1 :: c2 :: rest =>
    by_cases hcc : c1 = '/' ∧ c2 = '/'
    · refine ⟨rest.dropWhile (fun c => !(isNetlocDelim c)), ?_, fun q => ?_⟩
      · intro c hc
        have : c ∈ rest := (List.dropWhile_sublist _).subset hc
        simp [this]
      · show splitNetloc (c1 :: c2 :: (rest ++ '?' :: q)) = _
        rw [splitNetloc_two, if_pos hcc]
        exact dropWhile_append_head_false _ _ _ (by decide)
    · refine ⟨c1 :: c2 :: rest, fun c hc => hc, fun q => ?_⟩
      show splitNetloc (c1 :: c2 :: (rest ++ '?' :: q)) = _
      rw [splitNetloc_two, if_neg hcc]
      rfl

lemma urlparse_path_query_invariant (u : String)
    (h1 : ('?' : Char) ∉ u.data) (h2 : ('#' : Char) ∉ u.data) :
    ∃ path : List Char, ∀ q : String, urlparse_path (u ++ "?" ++ q) = ⟨path⟩ := by
  have ha0 : ∀ c ∈ removeUnsafeUrl (lstripControlOrSpace u.data), c ∈ u.data := by
    intro c hc
    exact (List.dropWhile_sublist _).subset (List.mem_of_mem_filter hc)
  obtain ⟨a1, ha1sub, ha1⟩ :=
    splitScheme_append (removeUnsafeUrl (lstripControlOrSpace u.data))
  obtain ⟨a2, ha2sub, ha2⟩ := splitNetloc_append a1
  have ha2q : ('?' : Char) ∉ a2 := fun hc => h1 (ha0 _ (ha1sub _ (ha2sub _ hc)))
  have ha2h : ('#' : Char) ∉ a2 := fun hc => h2 (ha0 _ (ha1sub _ (ha2sub _ hc)))
  refine ⟨splitparams a2, fun q => ?_⟩
  unfold urlparse_path
  have hdata : (u ++ "?" ++ q).data = u.data ++ '?' :: q.data := by
    simp [String.data_append]
  rw [hdata, sanitize_append, ha1, ha2]
  have hfr : dropFragment (a2 ++ '?' :: removeUnsafeUrl q.data)
      = a2 ++ '?' :: dropFragment (removeUnsafeUrl q.data) := by
    unfold dropFragment
    rw [takeWhile_append_of_all a2 _ (fun c hc => by
      have hne : c ≠ '#' := fun hcq => ha2h (hcq ▸ hc)
      simp [hne])]
    rfl
  rw [hfr]
  unfold dropQuery
  rw [takeWhile_append_stop a2 _ '?' (fun c hc => by
    have hne : c ≠ '?' := fun hcq => ha2q (hcq ▸ hc)
    simp [hne]) (by decide)]

/-- C4: the signed endpoint is the URL's path only — the query string is
excluded from the signature even though the request is sent with it, so two
request URLs that differ only in their query string produce the same
canonical endpoint and byte-identical signed headers. -/
theorem C4_query_excluded_from_signature (pub priv date_str method u q1 q2 : String)
    (h1 : ('?' : Char) ∉ u.data) (h2 : ('#' : Char) ∉ u.data) :
    urlparse_path (u ++ "?" ++ q1) = urlparse_path (u ++ "?" ++ q2) ∧
    build_signed_headers pub priv (u ++ "?" ++ q1) date_str method
      = build_signed_headers pub priv (u ++ "?" ++ q2) date_str method := by
  obtain ⟨path, hp⟩ := urlparse_path_query_invariant u h1 h2
  have hpaths : urlparse_path (u ++ "?" ++ q1) = urlparse_path (u ++ "?" ++ q2) := by
    rw [hp q1, hp q2]
  refine ⟨hpaths, ?_⟩
  unfold build_signed_headers
  rw [hpaths]

theorem C4_witness :
    urlparse_path ("https://live.luigisbox.com/v1/content_export" ++ "?" ++ "size=500")
      = urlparse_path ("https://live.luigisbox.com/v1/content_export" ++ "?" ++ "size=10&f=x") ∧
    build_signed_headers ("pub") ("priv")
        ("https://live.luigisbox.com/v1/content_export" ++ "?" ++ "size=500")
        ("Tue, 01 Oct 2024 10:00:00 GMT") ("GET")
      = build_signed_headers ("pub") ("priv")
        ("https://live.luigisbox.com/v1/content_export" ++ "?" ++ "size=10&f=x")
        ("Tue, 01 Oct 2024 10:00:00 GMT") ("GET") :=
  C4_query_excluded_from_signature ("pub") ("priv") ("Tue, 01 Oct 2024 10:00:00 GMT")
    ("GET") ("https://live.luigisbox.com/v1/content_export") ("size=500") ("size=10&f=x")
    (by decide) (by decide)

end LBox
